import Mathlib

/-!
Verification development for the `mwfc-api` leaderboard service
(`src/services/leaderboard.ts`, routed through `src/index.ts`).

The pure leaderboard computation is embedded shallowly:

* rows already fetched from the database (competition, programming track,
  published track workouts, registrations, scores) are the inputs of
  `getLeaderboard`; the SQL `where` clauses of the queries are embedded as
  list filters on those rows;
* JavaScript `Map` objects are embedded as insertion-ordered association
  lists (`mapSet` mirrors `Map.set`, `List.lookup` mirrors `Map.get`);
* `Array.prototype.sort`, which is stable, is embedded as the stable
  `List.insertionSort`;
* JavaScript numbers are embedded as `Int` (every numeric column involved is
  an integer column; points are produced by `Math.round`);
  `Math.round(a / 100)` on integers is computed exactly as
  `⌊a/100 + 1/2⌋ = (2*a + 100).fdiv 200`;
* `JSON.parse` is an external library routine: a registration's metadata
  field is embedded as `Option Json`, the result of that parse (`none`
  standing for a NULL column, an empty string, or a parse error, all of
  which `parseAffiliateName` maps to its fallback).
-/

/-- JSON values as produced by `JSON.parse`.  Object fields are listed in
JavaScript property-enumeration order (integer-like keys first, then string
keys in insertion order), with duplicate keys already collapsed, exactly as
`JSON.parse` yields them.  Numeric values are modelled as integers (no claim
depends on fractional JSON numbers). -/
inductive Json where
  | null
  | bool (b : Bool)
  | num (n : Int)
  | str (s : String)
  | arr (elems : List Json)
  | obj (fields : List (String × Json))

mutual

/-- Decidable equality on `Json`, by structural recursion (the `deriving`
handler does not support this nested inductive). -/
def Json.decEq : (a b : Json) → Decidable (a = b)
  | .null, .null => isTrue rfl
  | .null, .bool _ | .null, .num _ | .null, .str _ | .null, .arr _
  | .null, .obj _ | .bool _, .null | .bool _, .num _ | .bool _, .str _
  | .bool _, .arr _ | .bool _, .obj _ | .num _, .null | .num _, .bool _
  | .num _, .str _ | .num _, .arr _ | .num _, .obj _ | .str _, .null
  | .str _, .bool _ | .str _, .num _ | .str _, .arr _ | .str _, .obj _
  | .arr _, .null | .arr _, .bool _ | .arr _, .num _ | .arr _, .str _
  | .arr _, .obj _ | .obj _, .null | .obj _, .bool _ | .obj _, .num _
  | .obj _, .str _ | .obj _, .arr _ => isFalse nofun
  | .bool a, .bool b =>
    match Bool.decEq a b with
    | isTrue h => isTrue (congrArg Json.bool h)
    | isFalse h => isFalse (fun he => h (Json.noConfusion he id))
  | .num a, .num b =>
    match Int.decEq a b with
    | isTrue h => isTrue (congrArg Json.num h)
    | isFalse h => isFalse (fun he => h (Json.noConfusion he id))
  | .str a, .str b =>
    match String.decEq a b with
    | isTrue h => isTrue (congrArg Json.str h)
    | isFalse h => isFalse (fun he => h (Json.noConfusion he id))
  | .arr as, .arr bs =>
    match Json.decEqList as bs with
    | isTrue h => isTrue (congrArg Json.arr h)
    | isFalse h => isFalse (fun he => h (Json.noConfusion he id))
  | .obj as, .obj bs =>
    match Json.decEqFields as bs with
    | isTrue h => isTrue (congrArg Json.obj h)
    | isFalse h => isFalse (fun he => h (Json.noConfusion he id))

def Json.decEqList : (as bs : List Json) → Decidable (as = bs)
  | [], [] => isTrue rfl
  | [], _ :: _ | _ :: _, [] => isFalse nofun
  | a :: as, b :: bs =>
    match Json.decEq a b, Json.decEqList as bs with
    | isTrue h1, isTrue h2 => isTrue (by rw [h1, h2])
    | isFalse h1, _ =>
      isFalse (fun he => h1 (List.noConfusion he (fun hh _ => hh)))
    | _, isFalse h2 =>
      isFalse (fun he => h2 (List.noConfusion he (fun _ ht => ht)))

def Json.decEqFields : (as bs : List (String × Json)) → Decidable (as = bs)
  | [], [] => isTrue rfl
  | [], _ :: _ | _ :: _, [] => isFalse nofun
  | (k, a) :: as, (l, b) :: bs =>
    match String.decEq k l, Json.decEq a b, Json.decEqFields as bs with
    | isTrue hk, isTrue h1, isTrue h2 => isTrue (by rw [hk, h1, h2])
    | isFalse hk, _, _ =>
      isFalse (fun he => by
        cases he
        exact hk rfl)
    | _, isFalse h1, _ =>
      isFalse (fun he => by
        cases he
        exact h1 rfl)
    | _, _, isFalse h2 =>
      isFalse (fun he => by
        cases he
        exact h2 rfl)

end

instance : DecidableEq Json := Json.decEq

/-- JavaScript truthiness of a parsed JSON value (`undefined`, absent here,
is covered by the `null` case wherever a missing property is modelled). -/
def Json.truthy : Json → Bool
  | .null => false
  | .bool b => b
  | .num n => n != 0
  | .str s => s != ""
  | .arr _ => true
  | .obj _ => true

/-- Property access `v[key]` on a parsed JSON value: a property of an
object, `undefined` (modelled as `none`) otherwise. -/
def Json.getProp : Json → String → Option Json
  | .obj fields, key => fields.lookup key
  | _, _ => none

/-- `Object.values` on a parsed JSON value: field values of an object,
elements of an array, one-character strings for a string, `[]` for other
primitives. -/
def Json.values : Json → List Json
  | .obj fields => fields.map (·.2)
  | .arr elems => elems
  | .str s => s.toList.map (fun c => .str c.toString)
  | _ => []

/-- `parseAffiliateName` (leaderboard.ts:219-233).  The argument is the
result of `JSON.parse` on the registration's metadata column: `none` when
the column is NULL/empty (the `!metadata` guard) or the parse throws (the
`catch`).  Accessing `.affiliateName` on the parsed value `null` throws and
is caught, so it also lands on the fallback.  The returned value is
`parsed.affiliateName` itself when truthy (the TS annotation says `string`,
but the code returns whatever JSON value sits there), else the first
`Object.values` entry of `parsed.affiliates` when that is a string, else
the string "Unaffiliated". -/
def parseAffiliateName (parsed : Option Json) : Json :=
  match parsed with
  | none => .str "Unaffiliated"
  | some p =>
    let affName := (p.getProp "affiliateName").getD .null
    if affName.truthy then affName
    else
      let affiliates := (p.getProp "affiliates").getD .null
      if affiliates.truthy then
        match affiliates.values.head? with
        | some (.str s) => .str s
        | _ => .str "Unaffiliated"
      else .str "Unaffiliated"

/-- `calculateTraditionalPoints` (leaderboard.ts:175-179):
100 for first place, 5 fewer per further place, floored at 0; non-positive
places defensively score 100. -/
def calculateTraditionalPoints (place : Int) : Int :=
  if place ≤ 0 then 100
  else max 0 (100 - (place - 1) * 5)

/-- A score entry handed to ranking (interface `ScoreEntry`,
leaderboard.ts:185-190).  `value` is the nullable integer `scoreValue`
column, `sortKey` the nullable tie-break string. -/
structure ScoreEntry where
  userId : String
  value : Option Int
  status : String
  sortKey : Option String
  deriving DecidableEq

/-- Truthiness of a nullable JavaScript string: non-null and non-empty. -/
def sortKeyTruthy : Option String → Bool
  | some s => s != ""
  | none => false

/-- Loop body state of `assignRanks` (leaderboard.ts:192-213): `i` is the
current index, `cur` the running `currentRank`, `prevSK`/`prevV` the
previous entry's sort key and value (both `null` before the first
iteration). -/
def assignRanksAux : List ScoreEntry → Nat → Nat → Option String → Option Int →
    List (ScoreEntry × Nat)
  | [], _, _, _, _ => []
  | e :: rest, i, cur, prevSK, prevV =>
    let cur' :=
      if sortKeyTruthy e.sortKey ∧ prevSK.isSome then
        if e.sortKey ≠ prevSK then i + 1 else cur
      else if prevV.isSome ∧ e.value ≠ prevV then i + 1
      else cur
    (e, cur') :: assignRanksAux rest (i + 1) cur' e.sortKey e.value

/-- `assignRanks` (leaderboard.ts:192-213): dense competition ranks over an
already-sorted list of active score entries. -/
def assignRanks (sorted : List ScoreEntry) : List (ScoreEntry × Nat) :=
  assignRanksAux sorted 0 1 none none

/-- The comparator of the active-score sort (leaderboard.ts:395-398), as a
"is less or equal" test: compare sort keys lexicographically when both are
truthy (`localeCompare` embedded as string order), else compare values with
null coerced to 0. -/
def scoreCmpLe (a b : ScoreEntry) : Bool :=
  if sortKeyTruthy a.sortKey ∧ sortKeyTruthy b.sortKey then
    a.sortKey.getD "" ≤ b.sortKey.getD ""
  else
    a.value.getD 0 ≤ b.value.getD 0

/-- One (event, division) ranking pass (loop body at leaderboard.ts:386-438):
split the division's entries into active (`scored`/`cap`) and `dnf`, sort
the active ones, rank them densely, and give every `dnf` entry the rank
right after the last (worst) active rank. -/
def rankDivision (divScores : List ScoreEntry) : List (ScoreEntry × Nat) :=
  let active := divScores.filter (fun s => s.status == "scored" || s.status == "cap")
  let dnfScores := divScores.filter (fun s => s.status == "dnf")
  let sorted := List.insertionSort (fun a b => scoreCmpLe a b = true) active
  let ranked := assignRanks sorted
  let lastActiveRank := (ranked.getLast?.map (·.2)).getD 0
  ranked ++ dnfScores.map (fun e => (e, lastActiveRank + 1))

/-- `Math.round (num / den)` for integers, `den > 0`: exact rational
rounding, halves toward positive infinity. -/
def jsRound (num den : Int) : Int :=
  (2 * num + den).fdiv (2 * den)

/-- Points awarded for a rank under an event's `pointsMultiplier`
(leaderboard.ts:384, 405-408, 425-428):
`Math.round(calculateTraditionalPoints(rank) * (pointsMultiplier ?? 100) / 100)`. -/
def eventPoints (rank : Nat) (pointsMultiplier : Option Int) : Int :=
  jsRound (calculateTraditionalPoints (rank : Int) * pointsMultiplier.getD 100) 100

/-- The competition row fetched at leaderboard.ts:244-248. -/
structure Competition where
  id : String
  name : String
  deriving DecidableEq

/-- One published event: a row of the `trackWorkouts ⋈ workouts` query at
leaderboard.ts:264-281 (already filtered to `eventStatus = "published"` and
ordered by `trackOrder`, as that query does). -/
structure EventRow where
  id : String
  trackOrder : Int
  pointsMultiplier : Option Int
  workoutId : String
  workoutName : String
  scheme : String
  deriving DecidableEq

/-- One registration row of the query at leaderboard.ts:288-309, joined with
`users` and `scalingLevels`.  `metadata` is the `JSON.parse` outcome of the
metadata column (see `parseAffiliateName`).  `status` is carried so that the
query's `status != "REMOVED"` filter can be embedded. -/
structure RegistrationRow where
  regId : String
  userId : String
  divisionId : Option String
  metadata : Option Json
  firstName : Option String
  lastName : Option String
  divisionLabel : Option String
  status : String
  deriving DecidableEq

/-- One score row of the query at leaderboard.ts:319-333. -/
structure ScoreRow where
  userId : String
  competitionEventId : String
  scoreValue : Option Int
  status : String
  sortKey : Option String
  deriving DecidableEq

/-- Interface `AthleteEventResult` (leaderboard.ts:108-113). -/
structure AthleteEventResult where
  eventId : String
  eventName : String
  points : Int
  rank : Nat
  deriving DecidableEq

/-- A value of the `athleteMap` built at leaderboard.ts:336-361. -/
structure AthleteData where
  userId : String
  name : String
  affiliateName : Json
  divisionId : String
  divisionLabel : String
  events : List AthleteEventResult
  totalPoints : Int
  deriving DecidableEq

/-- Interface `LeaderboardAthlete` (leaderboard.ts:115-122). -/
structure LeaderboardAthlete where
  rank : Nat
  userId : String
  name : String
  affiliateName : Json
  events : List AthleteEventResult
  totalPoints : Int
  deriving DecidableEq

/-- Interface `DivisionLeaderboard` (leaderboard.ts:124-128). -/
structure DivisionLeaderboard where
  id : String
  name : String
  athletes : List LeaderboardAthlete
  deriving DecidableEq

/-- Interface `GymAthleteEvent` (leaderboard.ts:130-135). -/
structure GymAthleteEvent where
  eventId : String
  eventName : String
  points : Int
  contributing : Bool
  deriving DecidableEq

/-- Interface `GymAthleteEntry` (leaderboard.ts:137-143). -/
structure GymAthleteEntry where
  name : String
  division : String
  divisionRank : Nat
  events : List GymAthleteEvent
  contributingTotal : Int
  deriving DecidableEq

/-- Interface `GymLeaderboard` (leaderboard.ts:145-151).  The TS field
`name` is annotated `string` but holds whatever `parseAffiliateName`
returned, hence `Json` here. -/
structure GymLeaderboard where
  name : Json
  rank : Nat
  athleteCount : Nat
  totalScore : Int
  athletes : List GymAthleteEntry
  deriving DecidableEq

/-- Interface `LeaderboardResponse` (leaderboard.ts:153-157). -/
structure LeaderboardResponse where
  competition : Competition
  divisions : List DivisionLeaderboard
  gyms : List GymLeaderboard
  deriving DecidableEq

/-- `Map.set` on an insertion-ordered association list: replace the value at
the first matching key in place, or append a new binding at the end. -/
def mapSet [BEq κ] : List (κ × β) → κ → β → List (κ × β)
  | [], k, v => [(k, v)]
  | (k', v') :: rest, k, v =>
    if k' == k then (k, v) :: rest else (k', v') :: mapSet rest k v

/-- `.trim()`: strip leading and trailing whitespace (expressed through
list operations so that concrete computations reduce). -/
def jsTrim (s : String) : String :=
  String.mk (((s.data.dropWhile Char.isWhitespace).reverse.dropWhile
    Char.isWhitespace).reverse)

/-- `x || dflt` on a nullable JavaScript string: the default replaces both
null and the empty string. -/
def jsOrElse (s : Option String) (dflt : String) : String :=
  match s with
  | some v => if v = "" then dflt else v
  | none => dflt

/-- The athlete record a registration row creates (loop body at
leaderboard.ts:349-361). -/
def mkAthlete (reg : RegistrationRow) : AthleteData :=
  let fullName := jsTrim ((jsOrElse reg.firstName "") ++ " " ++ (jsOrElse reg.lastName ""))
  { userId := reg.userId
    name := if fullName = "" then "Unknown" else fullName
    affiliateName := parseAffiliateName reg.metadata
    divisionId := jsOrElse reg.divisionId "open"
    divisionLabel := jsOrElse reg.divisionLabel "Open"
    events := []
    totalPoints := 0 }

/-- A score row as a ranking entry (leaderboard.ts:375-380). -/
def toScoreEntry (s : ScoreRow) : ScoreEntry :=
  { userId := s.userId, value := s.scoreValue, status := s.status, sortKey := s.sortKey }

/-- The registration query's `status != "REMOVED"` filter
(leaderboard.ts:307). -/
def eligibleRegs (registrations : List RegistrationRow) : List RegistrationRow :=
  registrations.filter (fun r => r.status != "REMOVED")

/-- The score query's `inArray` filters (leaderboard.ts:328-333): only
scores for fetched events and registered users. -/
def filteredScores (events : List EventRow) (regs : List RegistrationRow)
    (scores : List ScoreRow) : List ScoreRow :=
  scores.filter (fun s =>
    (events.map (·.id)).contains s.competitionEventId
      && (regs.map (·.userId)).contains s.userId)

/-- Step 6 (leaderboard.ts:336-361): the athlete map, one record per
registration, later registrations of the same user overwriting earlier
ones (`Map.set`). -/
def initialAthleteMap (regs : List RegistrationRow) : List (String × AthleteData) :=
  regs.foldl (fun m reg => mapSet m reg.userId (mkAthlete reg)) []

/-- Grouping of one event's scores by the scoring athlete's division
(leaderboard.ts:366-382); scores of unknown users are dropped. -/
def divisionScoresFor (m : List (String × AthleteData)) (eventId : String)
    (allScores : List ScoreRow) : List (String × List ScoreEntry) :=
  allScores.foldl
    (fun acc s =>
      if s.competitionEventId ≠ eventId then acc
      else
        match m.lookup s.userId with
        | none => acc
        | some athlete =>
          mapSet acc athlete.divisionId
            (((acc.lookup athlete.divisionId).getD []) ++ [toScoreEntry s]))
    []

/-- Appending one event result to one athlete's record
(leaderboard.ts:409-418 and 421-437): look the athlete up, extend their
result list, add the points to their running total. -/
def pushResult (m : List (String × AthleteData)) (uid : String)
    (res : AthleteEventResult) : List (String × AthleteData) :=
  match m.lookup uid with
  | none => m
  | some a =>
    mapSet m uid
      { a with events := a.events ++ [res], totalPoints := a.totalPoints + res.points }

/-- The end-of-event placeholder fixup for one athlete record
(leaderboard.ts:441-451): athletes without a result for the event get a
0-point rank-0 result. -/
def placeholderUpdate (ev : EventRow) (a : AthleteData) : AthleteData :=
  if a.events.any (fun e => e.eventId == ev.id) then a
  else { a with events := a.events ++ [⟨ev.id, ev.workoutName, 0, 0⟩] }

/-- The event result awarded for one ranked entry (leaderboard.ts:405-437). -/
def eventResult (ev : EventRow) (er : ScoreEntry × Nat) : AthleteEventResult :=
  { eventId := ev.id
    eventName := ev.workoutName
    points := eventPoints er.2 ev.pointsMultiplier
    rank := er.2 }

/-- Step 7 for one event (loop body at leaderboard.ts:364-452): rank each
division's scores, award points, then give every athlete without a result
for this event a 0-point rank-0 placeholder. -/
def processEvent (allScores : List ScoreRow) (m : List (String × AthleteData))
    (ev : EventRow) : List (String × AthleteData) :=
  let divisionScores := divisionScoresFor m ev.id allScores
  let m1 := divisionScores.foldl
    (fun m' divPair =>
      (rankDivision divPair.2).foldl
        (fun m'' er => pushResult m'' er.1.userId (eventResult ev er))
        m')
    m
  m1.map (fun kv => (kv.1, placeholderUpdate ev kv.2))

/-- The athlete map after all events are processed (leaderboard.ts:364-452). -/
def finalAthleteMap (events : List EventRow) (regs : List RegistrationRow)
    (scores : List ScoreRow) : List (String × AthleteData) :=
  events.foldl (processEvent (filteredScores events regs scores)) (initialAthleteMap regs)

/-- The leaderboard athlete pushed for one athlete record (rank assigned
later), leaderboard.ts:470-477. -/
def toLeaderboardAthlete (a : AthleteData) : LeaderboardAthlete :=
  { rank := 0, userId := a.userId, name := a.name,
    affiliateName := a.affiliateName, events := a.events,
    totalPoints := a.totalPoints }

/-- Step 8 grouping (leaderboard.ts:455-478): athletes grouped by division
id, the division's display name taken from its first athlete. -/
def divisionGroupsFor (m : List (String × AthleteData)) :
    List (String × DivisionLeaderboard) :=
  m.foldl
    (fun acc kv =>
      let a := kv.2
      let div := (acc.lookup a.divisionId).getD
        { id := a.divisionId, name := a.divisionLabel, athletes := [] }
      mapSet acc a.divisionId
        { div with athletes := div.athletes ++ [toLeaderboardAthlete a] })
    []

/-- The dense-ranking loop state (leaderboard.ts:483-492 and 602-608): `i`
the index, `rank` the running rank, `prev` the previous element's key. -/
def denseRankAux (key : α → Int) (setRank : α → Nat → α) :
    Nat → Nat → Option Int → List α → List α
  | _, _, _, [] => []
  | i, rank, prev, x :: xs =>
    let r := match prev with
      | some p => if key x < p then i + 1 else rank
      | none => rank
    setRank x r :: denseRankAux key setRank (i + 1) r (some (key x)) xs

/-- Dense ranking over a descending-sorted list: rank 1 first, ties keep the
running rank, a strictly smaller key jumps to the 1-based position. -/
def denseRank (key : α → Int) (setRank : α → Nat → α) (l : List α) : List α :=
  denseRankAux key setRank 0 1 none l

/-- Step 8 (leaderboard.ts:455-495): division leaderboards, athletes sorted
by total points descending (stable) and densely ranked. -/
def buildDivisions (m : List (String × AthleteData)) : List DivisionLeaderboard :=
  (divisionGroupsFor m).map (fun dv =>
    let sorted := List.insertionSort (fun a b => b.totalPoints ≤ a.totalPoints) dv.2.athletes
    { dv.2 with athletes := denseRank (·.totalPoints) (fun a r => { a with rank := r }) sorted })

/-- The `userId → division rank` lookup built at leaderboard.ts:503-508
(from the already-ranked division groups). -/
def divisionRankMapFor (divisions : List DivisionLeaderboard) : List (String × Nat) :=
  divisions.foldl
    (fun acc div => div.athletes.foldl (fun acc' a => mapSet acc' a.userId a.rank) acc)
    []

/-- Grouping of athletes by gym (affiliate) name (leaderboard.ts:511-517).
JavaScript `Map` keying by the affiliate value is embedded with structural
equality on `Json`. -/
def gymAthleteIdsFor (m : List (String × AthleteData)) : List (Json × List String) :=
  m.foldl
    (fun acc kv =>
      let a := kv.2
      mapSet acc a.affiliateName (((acc.lookup a.affiliateName).getD []) ++ [a.userId]))
    []

/-- An athlete's points for one event (leaderboard.ts:533-534 and 566-567):
the points of their result for that event, 0 if none. -/
def pointsFor (a : AthleteData) (eventId : String) : Int :=
  ((a.events.find? (fun e => e.eventId == eventId)).map (·.points)).getD 0

/-- Grouping of a gym's athletes by division label for one event, paired
with their points there (leaderboard.ts:529-540). -/
def byDivFor (m : List (String × AthleteData)) (userIds : List String)
    (eventId : String) : List (String × List (String × Int)) :=
  userIds.foldl
    (fun acc uid =>
      match m.lookup uid with
      | none => acc
      | some athlete =>
        let pts := pointsFor athlete eventId
        mapSet acc athlete.divisionLabel
          (((acc.lookup athlete.divisionLabel).getD []) ++ [(uid, pts)]))
    []

/-- `TOP_PER_DIVISION` (leaderboard.ts:500). -/
def TOP_PER_DIVISION : Nat := 6

/-- Contribution selection for one event of one gym
(leaderboard.ts:527-557): per division, sort the gym's athletes by event
points descending (stable) and mark the first `TOP_PER_DIVISION` as
contributing, adding their points to the gym's running total.  The
contributing map sends a userId to the list of event ids it contributes to
(a `Set`, so ids are added at most once). -/
def selectEvent (m : List (String × AthleteData)) (userIds : List String)
    (ev : EventRow) (acc : List (String × List String) × Int) :
    List (String × List String) × Int :=
  (byDivFor m userIds ev.id).foldl
    (fun st divPair =>
      let sorted := List.insertionSort (fun a b => b.2 ≤ a.2) divPair.2
      (sorted.take TOP_PER_DIVISION).foldl
        (fun st' sel =>
          let eventSet := (st'.1.lookup sel.1).getD []
          let eventSet' := if ev.id ∈ eventSet then eventSet else eventSet ++ [ev.id]
          (mapSet st'.1 sel.1 eventSet', st'.2 + sel.2))
        st)
    acc

/-- One gym athlete entry (leaderboard.ts:560-586): per-event points with
their contributing flag, and the running contributing total. -/
def buildGymEntry (m : List (String × AthleteData)) (events : List EventRow)
    (contributingMap : List (String × List String)) (rankMap : List (String × Nat))
    (uid : String) : GymAthleteEntry :=
  match m.lookup uid with
  | none => { name := "", division := "", divisionRank := 0, events := [], contributingTotal := 0 }
  | some athlete =>
    let contribEvents := (contributingMap.lookup uid).getD []
    let built := events.foldl
      (fun st ev =>
        let pts := pointsFor athlete ev.id
        let isC := contribEvents.contains ev.id
        (st.1 ++ [{ eventId := ev.id, eventName := ev.workoutName,
                    points := pts, contributing := isC }],
         if isC then st.2 + pts else st.2))
      (([] : List GymAthleteEvent), (0 : Int))
    { name := athlete.name
      division := athlete.divisionLabel
      divisionRank := (rankMap.lookup uid).getD 0
      events := built.1
      contributingTotal := built.2 }

/-- One gym's leaderboard record before final ranking
(leaderboard.ts:521-597): contribution selection over all events, entries
sorted by contributing total descending (stable). -/
def buildGym (m : List (String × AthleteData)) (events : List EventRow)
    (rankMap : List (String × Nat)) (gymName : Json) (userIds : List String) :
    GymLeaderboard :=
  let sel := events.foldl (fun acc ev => selectEvent m userIds ev acc) ([], 0)
  let athleteEntries := userIds.map (buildGymEntry m events sel.1 rankMap)
  { name := gymName
    rank := 0
    athleteCount := userIds.length
    totalScore := sel.2
    athletes := List.insertionSort
      (fun a b => b.contributingTotal ≤ a.contributingTotal) athleteEntries }

/-- Final gym ranking (leaderboard.ts:600-608): drop empty gyms, sort by
total score descending (stable), assign dense ranks. -/
def rankGyms (gyms : List GymLeaderboard) : List GymLeaderboard :=
  let nonEmpty := gyms.filter (fun g => 0 < g.athleteCount)
  let sorted := List.insertionSort (fun a b => b.totalScore ≤ a.totalScore) nonEmpty
  denseRank (·.totalScore) (fun g r => { g with rank := r }) sorted

/-- `getLeaderboard` (leaderboard.ts:240-614), after the database fetches:
`comp` the competition row (the not-found error path is outside the pure
computation), `track` the optional programming-track row, `events` the
published-events query result, `registrations` the raw registration rows
(the query's `status != "REMOVED"` filter is embedded), `scores` the raw
score rows (the query's `inArray` filters are embedded).  Total function:
every input yields a response, no error. -/
def getLeaderboard (comp : Competition) (track : Option String)
    (events : List EventRow) (registrations : List RegistrationRow)
    (scores : List ScoreRow) : LeaderboardResponse :=
  match track with
  | none => { competition := comp, divisions := [], gyms := [] }
  | some _ =>
    if events.length = 0 then { competition := comp, divisions := [], gyms := [] }
    else
      let regs := eligibleRegs registrations
      if regs.length = 0 then { competition := comp, divisions := [], gyms := [] }
      else
        let m := finalAthleteMap events regs scores
        let divisions := buildDivisions m
        let rankMap := divisionRankMapFor divisions
        let gyms := (gymAthleteIdsFor m).map
          (fun gv => buildGym m events rankMap gv.1 gv.2)
        { competition := comp, divisions := divisions, gyms := rankGyms gyms }

/-- Claim C8's first extraction route: the parsed value has a truthy
`affiliateName` property. -/
def hasTruthyAffiliateName (p : Json) : Prop :=
  ∃ v, p.getProp "affiliateName" = some v ∧ v.truthy = true

/-- Claim C8's second extraction route, read as written: the parsed value
has an `affiliates` property that is a map (JSON object) whose first value
is a string. -/
def hasAffiliatesMapWithStringFirst (p : Json) : Prop :=
  ∃ fields s, p.getProp "affiliates" = some (Json.obj fields) ∧
    (Json.obj fields).values.head? = some (Json.str s)

/-- The extraction route the code actually implements: a truthy
`affiliates` property (of any JSON type) whose first `Object.values` entry
is a string. -/
def hasAffiliatesStringFirst (p : Json) : Prop :=
  ((p.getProp "affiliates").getD Json.null).truthy = true ∧
  ∃ s, ((p.getProp "affiliates").getD Json.null).values.head? = some (Json.str s)

/-- Claim C8 as stated: `parseAffiliateName` returns the default
"Unaffiliated" on a null/invalid metadata parse and on every parsed value
lacking both a truthy `affiliateName` and an affiliates map whose first
value is a string; otherwise it returns the extracted name. -/
def claimC8Statement : Prop :=
  (parseAffiliateName none = Json.str "Unaffiliated") ∧
  (∀ p : Json, ¬ hasTruthyAffiliateName p → ¬ hasAffiliatesMapWithStringFirst p →
    parseAffiliateName (some p) = Json.str "Unaffiliated") ∧
  (∀ p v, p.getProp "affiliateName" = some v → v.truthy = true →
    parseAffiliateName (some p) = v) ∧
  (∀ p fields s, ¬ hasTruthyAffiliateName p →
    p.getProp "affiliates" = some (Json.obj fields) →
    (Json.obj fields).values.head? = some (Json.str s) →
    parseAffiliateName (some p) = Json.str s)

/-- Claim C2's comparison-key tie between an entry and its predecessor:
sort keys when both entries carry one, else numeric values with a missing
value treated as 0. -/
def claimKeyTie (prev cur : ScoreEntry) : Bool :=
  if sortKeyTruthy prev.sortKey && sortKeyTruthy cur.sortKey then
    prev.sortKey == cur.sortKey
  else
    prev.value.getD 0 == cur.value.getD 0

/-- The ranks claim C2 asserts: 1 for the first entry, the predecessor's
rank on a key tie, else the 1-based position (`i` is the 0-based index,
`rank` the predecessor's rank). -/
def claimRanksAux : Nat → Nat → Option ScoreEntry → List ScoreEntry → List Nat
  | _, _, _, [] => []
  | i, rank, prev, x :: xs =>
    let r := match prev with
      | none => rank
      | some p => if claimKeyTie p x then rank else i + 1
    r :: claimRanksAux (i + 1) r (some x) xs

/-- The rank sequence claim C2 predicts for a list handed to `assignRanks`. -/
def claimRanks (l : List ScoreEntry) : List Nat :=
  claimRanksAux 0 1 none l

/-- The tie test `assignRanks` actually applies between an entry `cur` and
its predecessor `prev` (leaderboard.ts:201-205): sort keys are compared
when `cur` carries a truthy sort key and `prev` a non-null one; otherwise
values are compared strictly, a null predecessor value tying with
everything. -/
def codeKeyTie (prev cur : ScoreEntry) : Bool :=
  if sortKeyTruthy cur.sortKey && prev.sortKey.isSome then
    cur.sortKey == prev.sortKey
  else
    !(prev.value.isSome && cur.value != prev.value)

/-- The ranks `assignRanks` emits, characterised entry-by-entry via
`codeKeyTie`. -/
def codeRanksAux : Nat → Nat → Option ScoreEntry → List ScoreEntry → List Nat
  | _, _, _, [] => []
  | i, rank, prev, x :: xs =>
    let r := match prev with
      | none => rank
      | some p => if codeKeyTie p x then rank else i + 1
    r :: codeRanksAux (i + 1) r (some x) xs

/-- The rank sequence `assignRanks` emits, predecessor-characterised. -/
def codeRanks (l : List ScoreEntry) : List Nat :=
  codeRanksAux 0 1 none l

/-- A list of score entries sorted (ascending) according to the
active-score comparator. -/
def sortedByScoreCmp (l : List ScoreEntry) : Prop :=
  l.Pairwise (fun a b => scoreCmpLe a b = true)

/-- Claim C2 as stated, over every sorted input of `assignRanks`: ranks are
non-decreasing and follow the dense recurrence driven by `claimKeyTie`
(first entry rank 1, key tie keeps the predecessor's rank, a differing key
jumps to the 1-based position). -/
def claimC2Statement : Prop :=
  ∀ l : List ScoreEntry, sortedByScoreCmp l →
    List.Chain' (· ≤ ·) ((assignRanks l).map (·.2)) ∧
    (assignRanks l).map (·.2) = claimRanks l

/-- The sort-key/value state `assignRanksAux` carries for a previous entry. -/
def prevSKOf : Option ScoreEntry → Option String
  | none => none
  | some p => p.sortKey

/-- The value state `assignRanksAux` carries for a previous entry. -/
def prevVOf : Option ScoreEntry → Option Int
  | none => none
  | some p => p.value

/-- The active (`scored`/`cap`) entries of one (event, division) group
(leaderboard.ts:388-390). -/
def activeEntries (divScores : List ScoreEntry) : List ScoreEntry :=
  divScores.filter (fun s => s.status == "scored" || s.status == "cap")

/-- The maximum rank `assignRanks` gives to a group's active entries
(0 when there are none). -/
def maxActiveRank (divScores : List ScoreEntry) : Nat :=
  ((assignRanks (List.insertionSort (fun a b => scoreCmpLe a b = true)
      (activeEntries divScores))).map (·.2)).foldr max 0

/-- Whether a gym athlete entry is marked contributing for an event (the
`contributing` flag of its result for that event, false if absent). -/
def entryContributes (e : GymAthleteEntry) (eventId : String) : Bool :=
  ((e.events.find? (fun ge => ge.eventId == eventId)).map (·.contributing)).getD false

/-- A gym athlete entry's points for an event (0 if absent). -/
def entryEventPoints (e : GymAthleteEntry) (eventId : String) : Int :=
  ((e.events.find? (fun ge => ge.eventId == eventId)).map (·.points)).getD 0

/-- The rank sequence of the dense-ranking loop, separated from the record
update (used to characterise `denseRank`). -/
def denseRanksAux (key : α → Int) : Nat → Nat → Option Int → List α → List Nat
  | _, _, _, [] => []
  | i, rank, prev, x :: xs =>
    let r := match prev with
      | some p => if key x < p then i + 1 else rank
      | none => rank
    r :: denseRanksAux key (i + 1) r (some (key x)) xs

/-- Totality of the descending comparison on athlete total points. -/
instance : IsTotal LeaderboardAthlete (fun a b => b.totalPoints ≤ a.totalPoints) :=
  ⟨fun a b => le_total b.totalPoints a.totalPoints⟩

/-- Transitivity of the descending comparison on athlete total points. -/
instance : IsTrans LeaderboardAthlete (fun a b => b.totalPoints ≤ a.totalPoints) :=
  ⟨fun _ _ _ hab hbc => le_trans hbc hab⟩

/-- Totality of the descending comparison on gym total scores. -/
instance : IsTotal GymLeaderboard (fun a b => b.totalScore ≤ a.totalScore) :=
  ⟨fun a b => le_total b.totalScore a.totalScore⟩

/-- Transitivity of the descending comparison on gym total scores. -/
instance : IsTrans GymLeaderboard (fun a b => b.totalScore ≤ a.totalScore) :=
  ⟨fun _ _ _ hab hbc => le_trans hbc hab⟩

/-- Totality of the descending comparison on per-event points pairs. -/
instance : IsTotal (String × Int) (fun a b => b.2 ≤ a.2) :=
  ⟨fun a b => le_total b.2 a.2⟩

/-- Transitivity of the descending comparison on per-event points pairs. -/
instance : IsTrans (String × Int) (fun a b => b.2 ≤ a.2) :=
  ⟨fun _ _ _ hab hbc => le_trans hbc hab⟩

/-- Adding an event id to a userId's contributing set (a JS `Set`, so the
id is added at most once); the set is embedded as an insertion-ordered
list. -/
def addId (evId : String) (es : List String) : List String :=
  if evId ∈ es then es else es ++ [evId]

/-- One selection step of the contribution loop (leaderboard.ts:546-555):
record the picked athlete's event and add their points to the running
total. -/
def addContrib (evId : String) (st : List (String × List String) × Int)
    (sel : String × Int) : List (String × List String) × Int :=
  (mapSet st.1 sel.1 (addId evId ((st.1.lookup sel.1).getD [])), st.2 + sel.2)

/-- The (userId, points) pairs a gym marks contributing for one event: per
division, the first `TOP_PER_DIVISION` of the athletes sorted by event
points descending (leaderboard.ts:542-545). -/
def selectedPairs (m : List (String × AthleteData)) (userIds : List String)
    (ev : EventRow) : List (String × Int) :=
  (((byDivFor m userIds ev.id).map
    (fun dv => (List.insertionSort (fun a b => b.2 ≤ a.2) dv.2).take
      TOP_PER_DIVISION)).flatten)

/-- Example competition used by concrete witnesses. -/
def exComp : Competition := { id := "comp_1", name := "Comp" }

/-- Example published event (weight 100%). -/
def exC6Events : List EventRow :=
  [{ id := "e1", trackOrder := 1, pointsMultiplier := none, workoutId := "w1",
     workoutName := "W", scheme := "time" }]

/-- Example registrations: three athletes in division a/A. -/
def exC6Regs : List RegistrationRow :=
  [{ regId := "r1", userId := "u1", divisionId := some "a", metadata := none,
     firstName := some "U1", lastName := none, divisionLabel := some "A",
     status := "ACTIVE" },
   { regId := "r2", userId := "u2", divisionId := some "a", metadata := none,
     firstName := some "U2", lastName := none, divisionLabel := some "A",
     status := "ACTIVE" },
   { regId := "r3", userId := "u3", divisionId := some "a", metadata := none,
     firstName := some "U3", lastName := none, divisionLabel := some "A",
     status := "ACTIVE" }]

/-- Example scores: u1 and u2 tie at 10, u3 leads with 5 (lower is better). -/
def exC6Scores : List ScoreRow :=
  [{ userId := "u1", competitionEventId := "e1", scoreValue := some 10,
     status := "scored", sortKey := none },
   { userId := "u2", competitionEventId := "e1", scoreValue := some 10,
     status := "scored", sortKey := none },
   { userId := "u3", competitionEventId := "e1", scoreValue := some 5,
     status := "scored", sortKey := none }]

/-- The division leaderboard the example inputs produce. -/
def exC6A0 : LeaderboardAthlete :=
  { rank := 1, userId := "u3", name := "U3", affiliateName := Json.str "Unaffiliated",
    events := [{ eventId := "e1", eventName := "W", points := 100, rank := 1 }],
    totalPoints := 100 }

/-- Second-placed athlete of the example division. -/
def exC6A1 : LeaderboardAthlete :=
  { rank := 2, userId := "u1", name := "U1", affiliateName := Json.str "Unaffiliated",
    events := [{ eventId := "e1", eventName := "W", points := 95, rank := 2 }],
    totalPoints := 95 }

/-- The example division leaderboard (u1 and u2 tie on 95 behind u3). -/
def exC6Div : DivisionLeaderboard :=
  { id := "a", name := "A",
    athletes := [exC6A0, exC6A1,
      { rank := 2, userId := "u2", name := "U2",
        affiliateName := Json.str "Unaffiliated",
        events := [{ eventId := "e1", eventName := "W", points := 95, rank := 2 }],
        totalPoints := 95 }] }

/-- The single gym of the example output. -/
def exC6Gym : GymLeaderboard :=
  { name := Json.str "Unaffiliated", rank := 1, athleteCount := 3, totalScore := 290,
    athletes :=
      [{ name := "U3", division := "A", divisionRank := 1,
         events := [{ eventId := "e1", eventName := "W", points := 100, contributing := true }],
         contributingTotal := 100 },
       { name := "U1", division := "A", divisionRank := 2,
         events := [{ eventId := "e1", eventName := "W", points := 95, contributing := true }],
         contributingTotal := 95 },
       { name := "U2", division := "A", divisionRank := 2,
         events := [{ eventId := "e1", eventName := "W", points := 95, contributing := true }],
         contributingTotal := 95 }] }

/-- Registrations exercising the duplicate-user rule: u1 registers twice
(the later row wins), u2 is REMOVED. -/
def exC10Regs : List RegistrationRow :=
  [{ regId := "r1", userId := "u1", divisionId := some "a", metadata := none,
     firstName := some "Old", lastName := none, divisionLabel := some "A",
     status := "ACTIVE" },
   { regId := "r2", userId := "u1", divisionId := some "a", metadata := none,
     firstName := some "New", lastName := none, divisionLabel := some "A",
     status := "ACTIVE" },
   { regId := "r3", userId := "u2", divisionId := some "a", metadata := none,
     firstName := some "Gone", lastName := none, divisionLabel := some "A",
     status := "REMOVED" }]

/-- The single gym the duplicate-user example produces. -/
def exC10Entry : GymAthleteEntry :=
  { name := "New", division := "A", divisionRank := 1,
    events := [{ eventId := "e1", eventName := "W", points := 0, contributing := true }],
    contributingTotal := 0 }

/-- The gym leaderboard record of the duplicate-user example. -/
def exC10Gym : GymLeaderboard :=
  { name := Json.str "Unaffiliated", rank := 1, athleteCount := 1, totalScore := 0,
    athletes := [exC10Entry] }

/-! ### Basic facts about `assignRanks` -/

theorem assignRanksAux_map_fst (l : List ScoreEntry) :
    ∀ (i cur : Nat) (sk : Option String) (v : Option Int),
      (assignRanksAux l i cur sk v).map (·.1) = l := by
  induction l with
  | nil => intro i cur sk v; rfl
  | cons e rest ih => intro i cur sk v; simp [assignRanksAux, ih]

theorem assignRanks_map_fst (l : List ScoreEntry) :
    (assignRanks l).map (·.1) = l :=
  assignRanksAux_map_fst l 0 1 none none

theorem mem_of_mem_assignRanks {er : ScoreEntry × Nat} {l : List ScoreEntry}
    (h : er ∈ assignRanks l) : er.1 ∈ l := by
  have := List.mem_map_of_mem (fun p : ScoreEntry × Nat => p.1) h
  rwa [assignRanks_map_fst] at this

theorem assignRanksAux_snd_eq (l : List ScoreEntry) :
    ∀ (i cur : Nat) (prev : Option ScoreEntry),
      (assignRanksAux l i cur (prevSKOf prev) (prevVOf prev)).map (·.2) =
        codeRanksAux i cur prev l := by
  induction l with
  | nil => intro i cur prev; rfl
  | cons e rest ih =>
    intro i cur prev
    have step :
        (if sortKeyTruthy e.sortKey ∧ (prevSKOf prev).isSome then
          if e.sortKey ≠ prevSKOf prev then i + 1 else cur
        else if (prevVOf prev).isSome ∧ e.value ≠ prevVOf prev then i + 1
        else cur) =
          (match prev with
            | none => cur
            | some p => if codeKeyTie p e then cur else i + 1) := by
      cases prev with
      | none => simp [prevSKOf, prevVOf]
      | some p =>
        simp only [prevSKOf, prevVOf, codeKeyTie]
        by_cases hA : sortKeyTruthy e.sortKey = true ∧ p.sortKey.isSome = true
        · rcases hA with ⟨hA1, hA2⟩
          simp only [hA1, hA2, Bool.and_self, if_true, true_and]
          by_cases hne : e.sortKey = p.sortKey
          · simp [hne]
          · simp [hne, Ne.symm, beq_iff_eq]
        · have hA' : (sortKeyTruthy e.sortKey && p.sortKey.isSome) = false := by
            rcases Decidable.not_and_iff_or_not.mp hA with h | h
            · simp [Bool.eq_false_iff.mpr h]
            · simp [Bool.eq_false_iff.mpr h]
          rw [if_neg hA]
          simp only [hA', Bool.false_eq_true, if_false]
          by_cases hB : p.value.isSome = true ∧ e.value ≠ p.value
          · have hB' : (p.value.isSome && e.value != p.value) = true := by
              simp [hB.1, bne_iff_ne, hB.2]
            rw [if_pos hB, hB']
            simp
          · have hB' : (p.value.isSome && e.value != p.value) = false := by
              rcases Decidable.not_and_iff_or_not.mp hB with h | h
              · simp [Bool.eq_false_iff.mpr h]
              · simp only [ne_eq, not_not] at h
                simp [h]
            rw [if_neg hB, hB']
            simp
    simp only [assignRanksAux, codeRanksAux, List.map_cons, step]
    congr 1
    clear step
    have := ih (i + 1)
      (match prev with
        | none => cur
        | some p => if codeKeyTie p e then cur else i + 1)
      (some e)
    simpa [prevSKOf, prevVOf] using this

theorem assignRanks_map_snd (l : List ScoreEntry) :
    (assignRanks l).map (·.2) = codeRanks l :=
  assignRanksAux_snd_eq l 0 1 none

theorem codeRanksAux_head (i rank : Nat) (prev : Option ScoreEntry)
    (x : ScoreEntry) (xs : List ScoreEntry) :
    (codeRanksAux i rank prev (x :: xs)).head? =
      some (match prev with
        | none => rank
        | some p => if codeKeyTie p x then rank else i + 1) := by
  rfl

theorem codeRanksAux_bounds (l : List ScoreEntry) :
    ∀ (i rank : Nat) (prev : Option ScoreEntry), 1 ≤ rank → rank ≤ i + 1 →
      List.Chain' (· ≤ ·) (codeRanksAux i rank prev l) ∧
      (∀ r ∈ codeRanksAux i rank prev l, 1 ≤ r) ∧
      (∀ r, (codeRanksAux i rank prev l).head? = some r → rank ≤ r) := by
  induction l with
  | nil =>
    intro i rank prev _ _
    refine ⟨List.chain'_nil, by simp [codeRanksAux], ?_⟩
    intro r hr
    simp [codeRanksAux] at hr
  | cons x xs ih =>
    intro i rank prev h1 h2
    set r : Nat := (match prev with
      | none => rank
      | some p => if codeKeyTie p x then rank else i + 1) with hr
    have hr1 : 1 ≤ r := by
      rcases prev with _ | p
      · simpa [hr] using h1
      · simp only [hr]
        split
        · exact h1
        · omega
    have hr2 : r ≤ i + 1 := by
      rcases prev with _ | p
      · simpa [hr] using h2
      · simp only [hr]
        split
        · exact h2
        · omega
    have hcons : codeRanksAux i rank prev (x :: xs) =
        r :: codeRanksAux (i + 1) r (some x) xs := by
      rw [hr]
      rfl
    obtain ⟨tc, tp, th⟩ := ih (i + 1) r (some x) hr1 (by omega)
    refine ⟨?_, ?_, ?_⟩
    · rw [hcons, List.chain'_cons']
      refine ⟨?_, tc⟩
      intro b hb
      exact le_trans (th b hb) (le_refl b)
    · intro s hs
      rw [hcons] at hs
      rcases List.mem_cons.mp hs with h | h
      · omega
      · exact tp s h
    · intro s hs
      rw [hcons] at hs
      simp only [List.head?_cons, Option.some.injEq] at hs
      rcases prev with _ | p
      · simp only [hr] at hs
        omega
      · simp only [hr] at hs
        split at hs <;> omega

theorem codeRanks_chain' (l : List ScoreEntry) :
    List.Chain' (· ≤ ·) (codeRanks l) :=
  (codeRanksAux_bounds l 0 1 none (le_refl 1) (by omega)).1

theorem assignRanks_snd_chain' (l : List ScoreEntry) :
    List.Chain' (· ≤ ·) ((assignRanks l).map (·.2)) := by
  rw [assignRanks_map_snd]
  exact codeRanks_chain' l

theorem codeRanks_head (x : ScoreEntry) (xs : List ScoreEntry) :
    (codeRanks (x :: xs)).head? = some 1 := by
  rfl

theorem head_le_getLast_of_chain' (xs : List Nat) :
    ∀ x : Nat, List.Chain' (· ≤ ·) (x :: xs) →
      x ≤ ((x :: xs).getLast?).getD 0 := by
  induction xs with
  | nil => intro x _; simp
  | cons y ys ih =>
    intro x h
    rw [List.chain'_cons] at h
    have h2 := ih y h.2
    have hg : ((x :: y :: ys).getLast?) = ((y :: ys).getLast?) := by
      simp [List.getLast?_cons_cons]
    rw [hg]
    exact le_trans h.1 h2

theorem foldr_max_eq_getLast_of_chain' (l : List Nat)
    (h : List.Chain' (· ≤ ·) l) :
    l.foldr max 0 = l.getLast?.getD 0 := by
  induction l with
  | nil => rfl
  | cons x xs ih =>
    rcases xs with _ | ⟨y, ys⟩
    · simp
    · rw [List.chain'_cons] at h
      have ihy := ih h.2
      have hg : ((x :: y :: ys).getLast?) = ((y :: ys).getLast?) := by
        simp [List.getLast?_cons_cons]
      have hle : x ≤ ((y :: ys).getLast?).getD 0 :=
        le_trans h.1 (head_le_getLast_of_chain' ys y h.2)
      calc (x :: y :: ys).foldr max 0
          = max x ((y :: ys).foldr max 0) := by rfl
        _ = max x (((y :: ys).getLast?).getD 0) := by rw [ihy]
        _ = ((y :: ys).getLast?).getD 0 := by omega
        _ = ((x :: y :: ys).getLast?).getD 0 := by rw [hg]

/-! ### Claim C9 -/

/-- C9: for every rank r ≥ 1, `calculateTraditionalPoints r` equals
`max 0 (100 - 5*(r-1))`, and for every rank r ≤ 0 it equals 100. -/
theorem claimC9_traditional_points (r : Int) :
    (1 ≤ r → calculateTraditionalPoints r = max 0 (100 - 5 * (r - 1))) ∧
    (r ≤ 0 → calculateTraditionalPoints r = 100) := by
  constructor
  · intro h
    have hn : ¬ r ≤ 0 := by omega
    simp only [calculateTraditionalPoints, if_neg hn]
    ring_nf
  · intro h
    simp [calculateTraditionalPoints, h]

theorem claimC9_traditional_points_witness :
    (1 ≤ (3 : Int) ∧ calculateTraditionalPoints 3 = max 0 (100 - 5 * (3 - 1))) ∧
    ((-1 : Int) ≤ 0 ∧ calculateTraditionalPoints (-1) = 100) :=
  ⟨⟨by norm_num, (claimC9_traditional_points 3).1 (by norm_num)⟩,
   ⟨by norm_num, (claimC9_traditional_points (-1)).2 (by norm_num)⟩⟩

/-! ### Claim C7 -/

/-- C7: with a missing track, or no published events, or no non-REMOVED
registrations, `getLeaderboard` returns (successfully — it is a total
function) the response with the competition and empty division and gym
lists. -/
theorem claimC7_empty_inputs (comp : Competition) (track : Option String)
    (events : List EventRow) (registrations : List RegistrationRow)
    (scores : List ScoreRow)
    (h : track = none ∨ events = [] ∨ eligibleRegs registrations = []) :
    getLeaderboard comp track events registrations scores =
      { competition := comp, divisions := [], gyms := [] } := by
  rcases h with h | h | h
  · rw [h]
    rfl
  · cases track with
    | none => rfl
    | some t => subst h; simp [getLeaderboard]
  · cases track with
    | none => rfl
    | some t =>
      simp only [getLeaderboard]
      by_cases he : events.length = 0
      · rw [if_pos he]
      · rw [if_neg he]
        simp [h]

theorem claimC7_empty_inputs_witness :
    getLeaderboard { id := "comp_1", name := "C" } none
        [{ id := "e1", trackOrder := 1, pointsMultiplier := none,
           workoutId := "w1", workoutName := "W", scheme := "time" }] [] [] =
      { competition := { id := "comp_1", name := "C" }, divisions := [], gyms := [] } :=
  claimC7_empty_inputs _ _ _ _ _ (Or.inl rfl)

/-! ### Claim C2 -/

/-- C2 as stated is false: `assignRanks` does not treat a missing
predecessor value as 0.  On the sorted active list
`[{value: null}, {value: 5}]` the claim's comparison keys are 0 and 5, so
the second entry should get rank 2 (its 1-based position), but the code
emits rank 1 for it (`prevValue !== null` fails, so the rank never
advances). -/
theorem claimC2_counterexample : ¬ claimC2Statement := by
  intro h
  have h2 := (h [{ userId := "u1", value := none, status := "scored", sortKey := none },
                 { userId := "u2", value := some 5, status := "scored", sortKey := none }]
      (by unfold sortedByScoreCmp; decide)).2
  revert h2
  decide

/-- C2 amended: over every sorted input, `assignRanks` emits non-decreasing
ranks starting at 1, and each entry's rank follows the dense recurrence
driven by the code's actual tie test `codeKeyTie` (sort keys when the entry
has a truthy sort key and its predecessor a non-null one; otherwise strict
value comparison in which a null predecessor value ties with everything);
an entry deemed tied keeps its predecessor's rank, any other entry gets its
1-based position. -/
theorem claimC2_amended (l : List ScoreEntry) (_hs : sortedByScoreCmp l) :
    List.Chain' (· ≤ ·) ((assignRanks l).map (·.2)) ∧
    (∀ x xs, l = x :: xs → ((assignRanks l).map (·.2)).head? = some 1) ∧
    (assignRanks l).map (·.2) = codeRanks l := by
  refine ⟨assignRanks_snd_chain' l, ?_, assignRanks_map_snd l⟩
  intro x xs hl
  rw [assignRanks_map_snd l, hl]
  exact codeRanks_head x xs

theorem claimC2_amended_witness :
    sortedByScoreCmp
        [{ userId := "u1", value := some 3, status := "scored", sortKey := none },
         { userId := "u2", value := some 5, status := "scored", sortKey := none }] ∧
      (List.Chain' (· ≤ ·) ((assignRanks
        [{ userId := "u1", value := some 3, status := "scored", sortKey := none },
         { userId := "u2", value := some 5, status := "scored", sortKey := none }]).map (·.2)) ∧
      (∀ x xs,
        ([{ userId := "u1", value := some 3, status := "scored", sortKey := none },
          { userId := "u2", value := some 5, status := "scored", sortKey := none }] :
            List ScoreEntry) = x :: xs →
        ((assignRanks
        [{ userId := "u1", value := some 3, status := "scored", sortKey := none },
         { userId := "u2", value := some 5, status := "scored", sortKey := none }]).map (·.2)).head? = some 1) ∧
      (assignRanks
        [{ userId := "u1", value := some 3, status := "scored", sortKey := none },
         { userId := "u2", value := some 5, status := "scored", sortKey := none }]).map (·.2) =
        codeRanks
        [{ userId := "u1", value := some 3, status := "scored", sortKey := none },
         { userId := "u2", value := some 5, status := "scored", sortKey := none }]) :=
  ⟨by unfold sortedByScoreCmp; decide,
   claimC2_amended
     [{ userId := "u1", value := some 3, status := "scored", sortKey := none },
      { userId := "u2", value := some 5, status := "scored", sortKey := none }]
     (by unfold sortedByScoreCmp; decide)⟩

/-! ### Claim C3 -/

/-- C3: in every (event, division) ranking pass, every `dnf` entry receives
rank one more than the maximum rank among the group's active
(`scored`/`cap`) entries, and rank 1 when the group has no active entries. -/
theorem claimC3_dnf_rank (divScores : List ScoreEntry) (er : ScoreEntry × Nat)
    (hmem : er ∈ rankDivision divScores) (hdnf : er.1.status = "dnf") :
    er.2 = maxActiveRank divScores + 1 ∧
    (activeEntries divScores = [] → er.2 = 1) := by
  have hmax : er.2 = maxActiveRank divScores + 1 := by
    simp only [rankDivision] at hmem
    rcases List.mem_append.mp hmem with h | h
    · exfalso
      have h1 := mem_of_mem_assignRanks h
      have h2 := (List.perm_insertionSort
        (fun a b => scoreCmpLe a b = true) _).mem_iff.mp h1
      have h3 := List.of_mem_filter h2
      rw [hdnf] at h3
      simp at h3
    · rcases List.mem_map.mp h with ⟨e, _, he⟩
      have h2 : er.2 = (((assignRanks (List.insertionSort (fun a b => scoreCmpLe a b = true)
          (divScores.filter (fun s => s.status == "scored" || s.status == "cap")))).getLast?.map
            (·.2)).getD 0) + 1 := by
        rw [← he]
      rw [h2]
      congr 1
      unfold maxActiveRank activeEntries
      rw [foldr_max_eq_getLast_of_chain' _ (assignRanks_snd_chain' _)]
      rw [List.getLast?_map]
  refine ⟨hmax, ?_⟩
  intro hempty
  rw [hmax]
  unfold maxActiveRank
  rw [hempty]
  rfl

theorem claimC3_dnf_rank_witness :
    (({ userId := "b", value := none, status := "dnf", sortKey := none }, 2) ∈
        rankDivision
          [{ userId := "a", value := some 1, status := "scored", sortKey := none },
           { userId := "b", value := none, status := "dnf", sortKey := none }]) ∧
      (2 = maxActiveRank
          [{ userId := "a", value := some 1, status := "scored", sortKey := none },
           { userId := "b", value := none, status := "dnf", sortKey := none }] + 1 ∧
        (activeEntries
          [{ userId := "a", value := some 1, status := "scored", sortKey := none },
           { userId := "b", value := none, status := "dnf", sortKey := none }] = [] → 2 = 1)) :=
  ⟨by decide,
   claimC3_dnf_rank
     [{ userId := "a", value := some 1, status := "scored", sortKey := none },
      { userId := "b", value := none, status := "dnf", sortKey := none }]
     ({ userId := "b", value := none, status := "dnf", sortKey := none }, 2)
     (by decide) rfl⟩

/-! ### Claim C8 -/

/-- C8 as stated is false on one point: the second extraction route is not
restricted to an affiliates *map*.  For metadata parsing to
`{"affiliates": ["Gym C"]}` — no truthy `affiliateName`, no affiliates map
— the claim demands "Unaffiliated", but the code takes
`Object.values(["Gym C"])[0] = "Gym C"` (a string) and returns it. -/
theorem claimC8_counterexample : ¬ claimC8Statement := by
  intro h
  have h2 := h.2.1 (Json.obj [("affiliates", Json.arr [Json.str "Gym C"])]) ?_ ?_
  · revert h2
    decide
  · rintro ⟨v, hv, _⟩
    rw [show (Json.obj [("affiliates", Json.arr [Json.str "Gym C"])]).getProp
        "affiliateName" = none from by decide] at hv
    exact Option.noConfusion hv
  · rintro ⟨fields, s, hf, _⟩
    rw [show (Json.obj [("affiliates", Json.arr [Json.str "Gym C"])]).getProp
        "affiliates" = some (Json.arr [Json.str "Gym C"]) from by decide] at hf
    simp at hf

/-- C8 amended: `parseAffiliateName` is a total function (never an error);
it returns "Unaffiliated" on a null/unparseable metadata and on every
parsed value lacking both a truthy `affiliateName` and a truthy
`affiliates` value whose first `Object.values` entry is a string; it
returns the `affiliateName` value when that is truthy, and otherwise the
first `Object.values` entry of `affiliates` when that is a string. -/
theorem claimC8_amended (parsed : Option Json) :
    (parsed = none → parseAffiliateName parsed = Json.str "Unaffiliated") ∧
    (∀ p, parsed = some p → ¬ hasTruthyAffiliateName p → ¬ hasAffiliatesStringFirst p →
      parseAffiliateName parsed = Json.str "Unaffiliated") ∧
    (∀ p v, parsed = some p → p.getProp "affiliateName" = some v → v.truthy = true →
      parseAffiliateName parsed = v) ∧
    (∀ p s, parsed = some p → ¬ hasTruthyAffiliateName p →
      ((p.getProp "affiliates").getD Json.null).truthy = true →
      ((p.getProp "affiliates").getD Json.null).values.head? = some (Json.str s) →
      parseAffiliateName parsed = Json.str s) := by
  refine ⟨?_, ?_, ?_, ?_⟩
  · intro h
    rw [h]
    rfl
  · intro p hp hna hnm
    subst hp
    have hname : (((p.getProp "affiliateName").getD Json.null).truthy) = false := by
      cases hgp : p.getProp "affiliateName" with
      | none => simp [hgp, Json.truthy]
      | some v =>
        by_cases hv : v.truthy = true
        · exact absurd ⟨v, hgp, hv⟩ hna
        · simp [hgp, Bool.eq_false_iff.mpr hv]
    simp only [parseAffiliateName, hname, Bool.false_eq_true, if_false]
    by_cases haf : (((p.getProp "affiliates").getD Json.null).truthy) = true
    · rw [if_pos haf]
      cases hh : ((p.getProp "affiliates").getD Json.null).values.head? with
      | none => rfl
      | some j =>
        cases j with
        | str s => exact absurd ⟨haf, s, hh⟩ hnm
        | null => rfl
        | bool b => rfl
        | num n => rfl
        | arr xs => rfl
        | obj fs => rfl
    · rw [if_neg haf]
  · intro p v hp hv htr
    subst hp
    simp [parseAffiliateName, hv, htr]
  · intro p s hp hna haf hh
    subst hp
    have hname : (((p.getProp "affiliateName").getD Json.null).truthy) = false := by
      cases hgp : p.getProp "affiliateName" with
      | none => simp [hgp, Json.truthy]
      | some v =>
        by_cases hv : v.truthy = true
        · exact absurd ⟨v, hgp, hv⟩ hna
        · simp [hgp, Bool.eq_false_iff.mpr hv]
    simp only [parseAffiliateName, hname, Bool.false_eq_true, if_false, if_pos haf, hh]

theorem claimC8_amended_witness :
    ((Json.obj [("affiliateName", Json.str "Gym A")]).getProp "affiliateName" =
        some (Json.str "Gym A") ∧
      (Json.str "Gym A").truthy = true) ∧
    parseAffiliateName (some (Json.obj [("affiliateName", Json.str "Gym A")])) =
      Json.str "Gym A" :=
  ⟨⟨by decide, by decide⟩,
   (claimC8_amended (some (Json.obj [("affiliateName", Json.str "Gym A")]))).2.2.1
     (Json.obj [("affiliateName", Json.str "Gym A")]) (Json.str "Gym A")
     rfl (by decide) (by decide)⟩

/-! ### Association-list (JavaScript `Map`) lemmas -/

theorem lookup_mapSet_self [BEq κ] [LawfulBEq κ] (m : List (κ × β)) (k : κ) (v : β) :
    (mapSet m k v).lookup k = some v := by
  induction m with
  | nil => simp [mapSet, List.lookup]
  | cons kv rest ih =>
    rcases kv with ⟨k1, v1⟩
    by_cases h : k1 = k
    · simp [mapSet, h, List.lookup]
    · have hb : (k1 == k) = false := beq_eq_false_iff_ne.mpr h
      have hb2 : (k == k1) = false := beq_eq_false_iff_ne.mpr (Ne.symm h)
      simp [mapSet, hb, List.lookup, hb2, ih]

theorem lookup_mapSet_ne [BEq κ] [LawfulBEq κ] (m : List (κ × β)) (k k' : κ) (v : β)
    (h : k' ≠ k) : (mapSet m k v).lookup k' = m.lookup k' := by
  induction m with
  | nil => simp [mapSet, List.lookup, beq_eq_false_iff_ne.mpr h]
  | cons kv rest ih =>
    rcases kv with ⟨k1, v1⟩
    by_cases h1 : k1 = k
    · subst h1
      simp [mapSet, List.lookup, beq_eq_false_iff_ne.mpr h]
    · have hb : (k1 == k) = false := beq_eq_false_iff_ne.mpr h1
      by_cases h2 : k' = k1
      · subst h2
        simp [mapSet, hb, List.lookup]
      · have hb2 : (k' == k1) = false := beq_eq_false_iff_ne.mpr h2
        simp [mapSet, hb, List.lookup, hb2, ih]

theorem map_fst_mapSet [BEq κ] [LawfulBEq κ] (m : List (κ × β)) (k : κ) (v : β) :
    (mapSet m k v).map (·.1) =
      (if (m.lookup k).isSome then m.map (·.1) else m.map (·.1) ++ [k]) := by
  induction m with
  | nil => simp [mapSet, List.lookup]
  | cons kv rest ih =>
    rcases kv with ⟨k1, v1⟩
    by_cases h : k1 = k
    · subst h
      simp [mapSet, List.lookup]
    · have hb : (k1 == k) = false := beq_eq_false_iff_ne.mpr h
      have hb2 : (k == k1) = false := beq_eq_false_iff_ne.mpr (Ne.symm h)
      simp only [mapSet, hb, Bool.false_eq_true, if_false, List.map_cons,
        List.lookup_cons, hb2, ih]
      by_cases hl : (rest.lookup k).isSome
      · simp [hl]
      · simp [hl]

theorem lookup_isSome_of_mem_keys [BEq κ] [LawfulBEq κ] (m : List (κ × β)) (k : κ)
    (h : k ∈ m.map (·.1)) : (m.lookup k).isSome := by
  induction m with
  | nil => simp at h
  | cons kv rest ih =>
    rcases kv with ⟨k1, v1⟩
    rcases List.mem_cons.mp h with h1 | h1
    · simp only at h1
      subst h1
      simp [List.lookup]
    · by_cases h2 : k == k1
      · simp [List.lookup, h2]
      · simp only [List.lookup_cons, Bool.eq_false_iff.mpr h2]
        exact ih h1

theorem nodup_keys_mapSet [BEq κ] [LawfulBEq κ] (m : List (κ × β)) (k : κ) (v : β)
    (h : (m.map (·.1)).Nodup) : ((mapSet m k v).map (·.1)).Nodup := by
  rw [map_fst_mapSet]
  by_cases hl : (m.lookup k).isSome
  · simpa [hl] using h
  · have hk : k ∉ m.map (·.1) := fun hmem => hl (lookup_isSome_of_mem_keys m k hmem)
    simp only [hl, Bool.false_eq_true, if_false]
    exact List.Nodup.append h (List.nodup_singleton k) (by
      intro a ha hb
      simp only [List.mem_singleton] at hb
      subst hb
      exact hk ha)

theorem mem_keys_of_lookup_isSome [BEq κ] [LawfulBEq κ] (m : List (κ × β)) (k : κ)
    (h : (m.lookup k).isSome) : k ∈ m.map (·.1) := by
  induction m with
  | nil => simp [List.lookup] at h
  | cons kv rest ih =>
    rcases kv with ⟨k1, v1⟩
    by_cases h2 : k == k1
    · have : k = k1 := eq_of_beq h2
      subst this
      simp
    · simp only [List.lookup_cons, Bool.eq_false_iff.mpr h2] at h
      exact List.mem_cons_of_mem _ (ih h)


/-! ### Dense-ranking loop characterisation -/

theorem denseRankAux_eq_zipWith (key : α → Int) (setRank : α → Nat → α) (l : List α) :
    ∀ (i rank : Nat) (prev : Option Int),
      denseRankAux key setRank i rank prev l =
        List.zipWith setRank l (denseRanksAux key i rank prev l) := by
  induction l with
  | nil => intro i rank prev; rfl
  | cons x xs ih =>
    intro i rank prev
    simp only [denseRankAux, denseRanksAux, List.zipWith_cons_cons]
    exact congrArg _ (ih _ _ _)

theorem denseRanksAux_length (key : α → Int) (l : List α) :
    ∀ (i rank : Nat) (prev : Option Int),
      (denseRanksAux key i rank prev l).length = l.length := by
  induction l with
  | nil => intro i rank prev; rfl
  | cons x xs ih =>
    intro i rank prev
    simp only [denseRanksAux, List.length_cons, ih]

theorem denseRanksAux_cons (key : α → Int) (i rank : Nat) (prev : Option Int)
    (x : α) (xs : List α) :
    denseRanksAux key i rank prev (x :: xs) =
      (match prev with
        | some p => if key x < p then i + 1 else rank
        | none => rank) ::
      denseRanksAux key (i + 1)
        (match prev with
          | some p => if key x < p then i + 1 else rank
          | none => rank) (some (key x)) xs := by
  cases prev <;> rfl

theorem denseRanksAux_zero (key : α → Int) (i rank : Nat) (prev : Option Int)
    (x : α) (xs : List α) :
    (denseRanksAux key i rank prev (x :: xs))[0]? =
      some (match prev with
        | some p => if key x < p then i + 1 else rank
        | none => rank) := by
  rw [denseRanksAux_cons, List.getElem?_cons_zero]

theorem denseRanksAux_adjacent (key : α → Int) (l : List α) :
    ∀ (i rank : Nat) (prev : Option Int) (j : Nat) (x y : α) (rx ry : Nat),
      l[j]? = some x → l[j + 1]? = some y →
      (denseRanksAux key i rank prev l)[j]? = some rx →
      (denseRanksAux key i rank prev l)[j + 1]? = some ry →
      ry = if key y < key x then i + j + 2 else rx := by
  induction l with
  | nil =>
    intro i rank prev j x y rx ry hx
    simp at hx
  | cons a as ih =>
    intro i rank prev j x y rx ry hx hy hrx hry
    rw [denseRanksAux_cons] at hrx hry
    cases j with
    | zero =>
      rw [List.getElem?_cons_zero, Option.some.injEq] at hx
      subst hx
      rw [List.getElem?_cons_succ] at hy hry
      rw [List.getElem?_cons_zero, Option.some.injEq] at hrx
      rcases as with _ | ⟨b, bs⟩
      · simp at hy
      · rw [List.getElem?_cons_zero, Option.some.injEq] at hy
        subst hy
        rw [denseRanksAux_cons, List.getElem?_cons_zero, Option.some.injEq] at hry
        simp only at hry
        rw [← hry, ← hrx]
    | succ j' =>
      rw [List.getElem?_cons_succ] at hx hy hrx hry
      have := ih (i + 1) _ (some (key a)) j' x y rx ry hx hy hrx hry
      rw [this]
      by_cases hlt : key y < key x
      · simp only [hlt, if_true]
        omega
      · simp [hlt]

theorem denseRank_spec (key : α → Int) (setRank : α → Nat → α) (getRank : α → Nat)
    (hkey : ∀ x r, key (setRank x r) = key x)
    (hget : ∀ x r, getRank (setRank x r) = r)
    (l : List α) (hs : List.Pairwise (fun a b => key b ≤ key a) l) :
    (∀ j a b, (denseRank key setRank l)[j]? = some a →
      (denseRank key setRank l)[j + 1]? = some b →
      key b ≤ key a ∧
      (key b = key a → getRank b = getRank a) ∧
      (key b < key a → getRank b = j + 2)) ∧
    (∀ a, (denseRank key setRank l)[0]? = some a → getRank a = 1) := by
  have hzw : denseRank key setRank l =
      List.zipWith setRank l (denseRanksAux key 0 1 none l) :=
    denseRankAux_eq_zipWith key setRank l 0 1 none
  have hsplit : ∀ (j : Nat) (c : α),
      (denseRank key setRank l)[j]? = some c →
      ∃ x rx, l[j]? = some x ∧ (denseRanksAux key 0 1 none l)[j]? = some rx ∧
        c = setRank x rx := by
    intro j c hc
    rw [hzw, List.getElem?_zipWith] at hc
    cases hl : l[j]? with
    | none => rw [hl] at hc; simp at hc
    | some x =>
      cases hr : (denseRanksAux key 0 1 none l)[j]? with
      | none => rw [hl, hr] at hc; simp at hc
      | some rx =>
        rw [hl, hr] at hc
        simp only [Option.some.injEq] at hc
        exact ⟨x, rx, rfl, rfl, hc.symm⟩
  constructor
  · intro j a b ha hb
    obtain ⟨x, rx, hlx, hrx, hax⟩ := hsplit j a ha
    obtain ⟨y, ry, hly, hry, hby⟩ := hsplit (j + 1) b hb
    have hkb : key b = key y := by rw [hby, hkey]
    have hka : key a = key x := by rw [hax, hkey]
    have hgb : getRank b = ry := by rw [hby, hget]
    have hga : getRank a = rx := by rw [hax, hget]
    have hyx : key y ≤ key x := by
      obtain ⟨hjlen, hxe⟩ := List.getElem?_eq_some_iff.mp hlx
      obtain ⟨hj1len, hye⟩ := List.getElem?_eq_some_iff.mp hly
      have := List.pairwise_iff_getElem.mp hs j (j + 1) hjlen hj1len (by omega)
      rw [hxe, hye] at this
      exact this
    have hadj := denseRanksAux_adjacent key l 0 1 none j x y rx ry hlx hly hrx hry
    refine ⟨by rw [hkb, hka]; exact hyx, ?_, ?_⟩
    · intro heq
      rw [hkb, hka] at heq
      rw [hgb, hga, hadj, if_neg (by rw [heq]; exact lt_irrefl _)]
    · intro hlt
      rw [hkb, hka] at hlt
      rw [hgb, hadj, if_pos hlt]
      omega
  · intro a ha
    obtain ⟨x, rx, hlx, hrx, hax⟩ := hsplit 0 a ha
    rcases l with _ | ⟨z, zs⟩
    · simp at hlx
    · rw [denseRanksAux_zero] at hrx
      simp only [Option.some.injEq] at hrx
      rw [hax, hget, ← hrx]

/-! ### Claim C6 -/

/-- C6: within every division leaderboard the athletes are in descending
total-points order, adjacent equal totals share a rank, a strictly lower
total gets rank equal to its 1-based position, and the first rank is 1;
the gym leaderboard satisfies the same rules on total score. -/
theorem claimC6_dense_ranking (comp : Competition) (track : Option String)
    (events : List EventRow) (registrations : List RegistrationRow)
    (scores : List ScoreRow) :
    (∀ div ∈ (getLeaderboard comp track events registrations scores).divisions,
      (∀ j a b, div.athletes[j]? = some a → div.athletes[j + 1]? = some b →
        b.totalPoints ≤ a.totalPoints ∧
        (b.totalPoints = a.totalPoints → b.rank = a.rank) ∧
        (b.totalPoints < a.totalPoints → b.rank = j + 2)) ∧
      (∀ a, div.athletes[0]? = some a → a.rank = 1)) ∧
    (∀ j g h, (getLeaderboard comp track events registrations scores).gyms[j]? = some g →
      (getLeaderboard comp track events registrations scores).gyms[j + 1]? = some h →
      h.totalScore ≤ g.totalScore ∧
      (h.totalScore = g.totalScore → h.rank = g.rank) ∧
      (h.totalScore < g.totalScore → h.rank = j + 2)) ∧
    (∀ g, (getLeaderboard comp track events registrations scores).gyms[0]? = some g →
      g.rank = 1) := by
  have hdivisions : ∀ (m : List (String × AthleteData)),
      ∀ div ∈ buildDivisions m,
      (∀ j a b, div.athletes[j]? = some a → div.athletes[j + 1]? = some b →
        b.totalPoints ≤ a.totalPoints ∧
        (b.totalPoints = a.totalPoints → b.rank = a.rank) ∧
        (b.totalPoints < a.totalPoints → b.rank = j + 2)) ∧
      (∀ a, div.athletes[0]? = some a → a.rank = 1) := by
    intro m div hdiv
    rcases List.mem_map.mp hdiv with ⟨dv, _, rfl⟩
    have hs := List.sorted_insertionSort
      (fun a b : LeaderboardAthlete => b.totalPoints ≤ a.totalPoints) dv.2.athletes
    have hspec := denseRank_spec (fun a : LeaderboardAthlete => a.totalPoints)
      (fun a r => { a with rank := r }) (fun a => a.rank)
      (fun _ _ => rfl) (fun _ _ => rfl)
      (List.insertionSort (fun a b => b.totalPoints ≤ a.totalPoints) dv.2.athletes)
      hs
    exact ⟨fun j a b ha hb => hspec.1 j a b ha hb, fun a ha => hspec.2 a ha⟩
  have hgyms : ∀ (gyms0 : List GymLeaderboard),
      (∀ j g h, (rankGyms gyms0)[j]? = some g → (rankGyms gyms0)[j + 1]? = some h →
        h.totalScore ≤ g.totalScore ∧
        (h.totalScore = g.totalScore → h.rank = g.rank) ∧
        (h.totalScore < g.totalScore → h.rank = j + 2)) ∧
      (∀ g, (rankGyms gyms0)[0]? = some g → g.rank = 1) := by
    intro gyms0
    have hs := List.sorted_insertionSort
      (fun a b : GymLeaderboard => b.totalScore ≤ a.totalScore)
      (gyms0.filter (fun g => 0 < g.athleteCount))
    have hspec := denseRank_spec (fun g : GymLeaderboard => g.totalScore)
      (fun g r => { g with rank := r }) (fun g => g.rank)
      (fun _ _ => rfl) (fun _ _ => rfl)
      (List.insertionSort (fun a b => b.totalScore ≤ a.totalScore)
        (gyms0.filter (fun g => 0 < g.athleteCount)))
      hs
    exact ⟨fun j g h hg hh => hspec.1 j g h hg hh, fun g hg => hspec.2 g hg⟩
  cases track with
  | none =>
    refine ⟨?_, ?_, ?_⟩
    · intro div hdiv
      simp [getLeaderboard] at hdiv
    · intro j g h hg
      simp [getLeaderboard] at hg
    · intro g hg
      simp [getLeaderboard] at hg
  | some t =>
    by_cases he : events.length = 0
    · refine ⟨?_, ?_, ?_⟩
      · intro div hdiv
        simp [getLeaderboard, he] at hdiv
      · intro j g h hg
        simp [getLeaderboard, he] at hg
      · intro g hg
        simp [getLeaderboard, he] at hg
    · by_cases hr : (eligibleRegs registrations).length = 0
      · refine ⟨?_, ?_, ?_⟩
        · intro div hdiv
          simp [getLeaderboard, he, hr] at hdiv
        · intro j g h hg
          simp [getLeaderboard, he, hr] at hg
        · intro g hg
          simp [getLeaderboard, he, hr] at hg
      · have hout : getLeaderboard comp (some t) events registrations scores =
            { competition := comp,
              divisions := buildDivisions (finalAthleteMap events
                (eligibleRegs registrations) scores),
              gyms := rankGyms ((gymAthleteIdsFor (finalAthleteMap events
                (eligibleRegs registrations) scores)).map
                (fun gv => buildGym (finalAthleteMap events
                  (eligibleRegs registrations) scores) events
                  (divisionRankMapFor (buildDivisions (finalAthleteMap events
                    (eligibleRegs registrations) scores))) gv.1 gv.2)) } := by
          simp only [getLeaderboard, if_neg he, if_neg hr]
        rw [hout]
        exact ⟨hdivisions _, (hgyms _).1, (hgyms _).2⟩

theorem claimC6_dense_ranking_witness :
    (exC6Div ∈ (getLeaderboard exComp (some "t") exC6Events exC6Regs exC6Scores).divisions) ∧
    exC6Div.athletes[0]? = some exC6A0 ∧
    exC6Div.athletes[1]? = some exC6A1 ∧
    (exC6A1.totalPoints ≤ exC6A0.totalPoints ∧
      (exC6A1.totalPoints = exC6A0.totalPoints → exC6A1.rank = exC6A0.rank) ∧
      (exC6A1.totalPoints < exC6A0.totalPoints → exC6A1.rank = 0 + 2)) ∧
    exC6A0.rank = 1 ∧
    (getLeaderboard exComp (some "t") exC6Events exC6Regs exC6Scores).gyms[0]? =
      some exC6Gym ∧
    exC6Gym.rank = 1 := by
  refine ⟨by decide, by decide, by decide, ?_, ?_, by decide, ?_⟩
  · exact ((claimC6_dense_ranking exComp (some "t") exC6Events exC6Regs
      exC6Scores).1 exC6Div (by decide)).1 0 exC6A0 exC6A1 (by decide) (by decide)
  · exact ((claimC6_dense_ranking exComp (some "t") exC6Events exC6Regs
      exC6Scores).1 exC6Div (by decide)).2 exC6A0 (by decide)
  · exact (claimC6_dense_ranking exComp (some "t") exC6Events exC6Regs
      exC6Scores).2.2 exC6Gym (by decide)

/-! ### Generic grouping infrastructure -/

theorem mem_mapSet [BEq κ] (m : List (κ × β)) (k : κ) (v : β) (x : κ × β)
    (h : x ∈ mapSet m k v) : x ∈ m ∨ x = (k, v) := by
  induction m with
  | nil =>
    simp only [mapSet, List.mem_singleton] at h
    exact Or.inr h
  | cons kv rest ih =>
    rcases kv with ⟨k1, v1⟩
    simp only [mapSet] at h
    by_cases hb : (k1 == k) = true
    · rw [if_pos hb] at h
      rcases List.mem_cons.mp h with h1 | h1
      · exact Or.inr h1
      · exact Or.inl (List.mem_cons_of_mem _ h1)
    · rw [if_neg hb] at h
      rcases List.mem_cons.mp h with h1 | h1
      · exact Or.inl (h1 ▸ List.mem_cons_self _ _)
      · rcases ih h1 with h2 | h2
        · exact Or.inl (List.mem_cons_of_mem _ h2)
        · exact Or.inr h2

theorem lookup_mem [BEq κ] [LawfulBEq κ] (m : List (κ × β)) (k : κ) (v : β)
    (h : m.lookup k = some v) : (k, v) ∈ m := by
  induction m with
  | nil => simp [List.lookup] at h
  | cons kv rest ih =>
    rcases kv with ⟨k1, v1⟩
    by_cases hb : (k == k1) = true
    · have hk : k = k1 := eq_of_beq hb
      subst hk
      rw [List.lookup_cons] at h
      simp only [beq_self_eq_true] at h
      simp only [Option.some.injEq] at h
      subst h
      exact List.mem_cons_self _ _
    · rw [List.lookup_cons] at h
      rw [Bool.eq_false_iff.mpr hb] at h
      exact List.mem_cons_of_mem _ (ih h)

theorem flatten_proj_mapSet_append [BEq κ] [LawfulBEq κ] {δ : Type u_3}
    (proj : δ → List β) (m : List (κ × δ)) (k : κ) (v : δ) (x : β)
    (hk : proj v = (match m.lookup k with | some cur => proj cur | none => []) ++ [x]) :
    ((mapSet m k v).map (fun kv => proj kv.2)).flatten.Perm
      (((m.map (fun kv => proj kv.2)).flatten) ++ [x]) := by
  induction m with
  | nil =>
    simp only [List.lookup] at hk
    simp [mapSet, hk]
  | cons kv rest ih =>
    rcases kv with ⟨k1, v1⟩
    by_cases h : k1 = k
    · subst h
      have hl : List.lookup k1 ((k1, v1) :: rest) = some v1 := by
        simp [List.lookup]
      rw [hl] at hk
      simp only [mapSet, beq_self_eq_true, if_true, List.map_cons,
        List.flatten_cons, hk]
      rw [List.append_assoc (proj v1) [x] _, List.append_assoc (proj v1) _ [x]]
      exact List.Perm.append_left (proj v1) List.perm_append_comm
    · have hb : (k1 == k) = false := beq_eq_false_iff_ne.mpr h
      have hb2 : (k == k1) = false := beq_eq_false_iff_ne.mpr (Ne.symm h)
      have hl : List.lookup k ((k1, v1) :: rest) = List.lookup k rest := by
        simp [List.lookup, hb2]
      rw [hl] at hk
      simp only [mapSet, hb, Bool.false_eq_true, if_false, List.map_cons,
        List.flatten_cons]
      rw [List.append_assoc]
      exact List.Perm.append_left (proj v1) (ih hk)

theorem flatten_proj_foldl_perm {δ : Type u_3} (proj : δ → List β)
    (step : List (κ × δ) → ρ → List (κ × δ)) (emit : ρ → Option β) (rs : List ρ)
    (hstep : ∀ acc r, (emit r = none → step acc r = acc) ∧
      (∀ x, emit r = some x →
        ((step acc r).map (fun kv => proj kv.2)).flatten.Perm
          (((acc.map (fun kv => proj kv.2)).flatten) ++ [x]))) :
    ∀ acc, ((rs.foldl step acc).map (fun kv => proj kv.2)).flatten.Perm
      (((acc.map (fun kv => proj kv.2)).flatten) ++ rs.filterMap emit) := by
  induction rs with
  | nil => intro acc; simp
  | cons r rest ih =>
    intro acc
    rw [List.foldl_cons, List.filterMap_cons]
    cases he : emit r with
    | none =>
      rw [(hstep acc r).1 he]
      exact ih acc
    | some x =>
      have h1 := ih (step acc r)
      have h2 := (hstep acc r).2 x he
      have h3 := h1.trans (List.Perm.append_right (rest.filterMap emit) h2)
      rw [List.append_assoc] at h3
      simpa using h3

theorem mem_denseRankAux (key : α → Int) (setRank : α → Nat → α) (l : List α) :
    ∀ (i rank : Nat) (prev : Option Int) (x : α),
      x ∈ denseRankAux key setRank i rank prev l → ∃ y r, y ∈ l ∧ x = setRank y r := by
  induction l with
  | nil => intro i rank prev x h; simp [denseRankAux] at h
  | cons a as ih =>
    intro i rank prev x h
    simp only [denseRankAux] at h
    rcases List.mem_cons.mp h with h1 | h1
    · exact ⟨a, _, List.mem_cons_self _ _, h1⟩
    · obtain ⟨y, r, hy, hx⟩ := ih _ _ _ x h1
      exact ⟨y, r, List.mem_cons_of_mem _ hy, hx⟩

theorem countP_zipWith_setRank (p : α → Bool) (setRank : α → Nat → α)
    (hp : ∀ x r, p (setRank x r) = p x) (l : List α) :
    ∀ rs : List Nat, rs.length = l.length →
      (List.zipWith setRank l rs).countP p = l.countP p := by
  induction l with
  | nil => intro rs _; simp
  | cons a as ih =>
    intro rs hlen
    rcases rs with _ | ⟨r, rs'⟩
    · simp at hlen
    · simp only [List.zipWith_cons_cons, List.countP_cons, hp,
        ih rs' (by simpa using hlen)]

theorem countP_denseRank (key : α → Int) (setRank : α → Nat → α) (p : α → Bool)
    (hp : ∀ x r, p (setRank x r) = p x) (l : List α) :
    (denseRank key setRank l).countP p = l.countP p := by
  rw [denseRank, denseRankAux_eq_zipWith]
  exact countP_zipWith_setRank p setRank hp l _ (denseRanksAux_length key l 0 1 none)

theorem lookup_map_value [BEq κ] (g : β → β) (m : List (κ × β)) (k : κ) :
    ((m.map (fun kv => (kv.1, g kv.2))).lookup k) = (m.lookup k).map g := by
  induction m with
  | nil => simp [List.lookup]
  | cons kv rest ih =>
    rcases kv with ⟨k1, v1⟩
    by_cases hb : (k == k1) = true
    · simp [List.lookup, hb]
    · simp only [List.map_cons, List.lookup_cons, Bool.eq_false_iff.mpr hb]
      exact ih

theorem map_fst_map_value [BEq κ] (g : β → β) (m : List (κ × β)) :
    ((m.map (fun kv => (kv.1, g kv.2))).map (·.1)) = m.map (·.1) := by
  induction m with
  | nil => rfl
  | cons kv rest ih => simp [ih]

/-! ### Athlete-map invariants -/

theorem foldl_invariant {μ ρ : Type u_3} (step : μ → ρ → μ) (P : μ → Prop)
    (rs : List ρ) (hstep : ∀ m r, r ∈ rs → P m → P (step m r)) :
    ∀ m0, P m0 → P (rs.foldl step m0) := by
  induction rs with
  | nil => intro m0 h; exact h
  | cons r rest ih =>
    intro m0 h
    rw [List.foldl_cons]
    exact ih (fun m x hx hP => hstep m x (List.mem_cons_of_mem _ hx) hP)
      (step m0 r) (hstep m0 r (List.mem_cons_self _ _) h)

theorem lookup_foldl_regs (regs : List RegistrationRow) (uid : String) :
    ∀ m0 : List (String × AthleteData),
      ((regs.foldl (fun m reg => mapSet m reg.userId (mkAthlete reg)) m0).lookup uid) =
        (match (regs.filter (fun r => r.userId == uid)).getLast? with
          | some r => some (mkAthlete r)
          | none => m0.lookup uid) := by
  induction regs with
  | nil => intro m0; rfl
  | cons r rest ih =>
    intro m0
    rw [List.foldl_cons, ih, List.filter_cons]
    by_cases hru : r.userId = uid
    · have hb : (r.userId == uid) = true := beq_iff_eq.mpr hru
      rw [hb]
      simp only [if_true]
      cases hrest : rest.filter (fun r => r.userId == uid) with
      | nil =>
        simp only [List.getLast?_nil, List.getLast?_singleton]
        subst hru
        rw [lookup_mapSet_self]
      | cons y ys =>
        rw [List.getLast?_cons_cons]
        rcases hz : (y :: ys).getLast? with _ | z
        · simp at hz
        · rfl
    · have hb : (r.userId == uid) = false := beq_eq_false_iff_ne.mpr hru
      rw [hb]
      simp only [Bool.false_eq_true, if_false]
      cases hlast : (rest.filter (fun r => r.userId == uid)).getLast? with
      | some y => rfl
      | none => exact lookup_mapSet_ne m0 r.userId uid (mkAthlete r) (Ne.symm hru)

theorem lookup_initialAthleteMap (regs : List RegistrationRow) (uid : String) :
    (initialAthleteMap regs).lookup uid =
      ((regs.filter (fun r => r.userId == uid)).getLast?).map mkAthlete := by
  rw [initialAthleteMap, lookup_foldl_regs regs uid []]
  cases hX : (regs.filter (fun r => r.userId == uid)).getLast? with
  | none => rfl
  | some r => rfl

theorem nodup_keys_initialAthleteMap (regs : List RegistrationRow) :
    ((initialAthleteMap regs).map (·.1)).Nodup := by
  rw [initialAthleteMap]
  refine foldl_invariant _
    (fun m : List (String × AthleteData) => (m.map (·.1)).Nodup) regs ?_ [] (by simp)
  intro m r _ h
  exact nodup_keys_mapSet m r.userId (mkAthlete r) h

theorem userId_eq_key_initialAthleteMap (regs : List RegistrationRow) :
    ∀ kv ∈ initialAthleteMap regs, kv.2.userId = kv.1 := by
  rw [initialAthleteMap]
  refine foldl_invariant _
    (fun m : List (String × AthleteData) => ∀ kv ∈ m, kv.2.userId = kv.1) regs ?_ []
    (by simp)
  intro m r _ h kv hkv
  rcases mem_mapSet m r.userId (mkAthlete r) kv hkv with h1 | h1
  · exact h kv h1
  · rw [h1]
    rfl

theorem map_fst_pushResult (m : List (String × AthleteData)) (uid : String)
    (res : AthleteEventResult) :
    (pushResult m uid res).map (·.1) = m.map (·.1) := by
  rw [pushResult]
  cases h : m.lookup uid with
  | none => rfl
  | some a =>
    rw [map_fst_mapSet, h]
    rfl

theorem map_fst_processEvent (allScores : List ScoreRow)
    (m : List (String × AthleteData)) (ev : EventRow) :
    (processEvent allScores m ev).map (·.1) = m.map (·.1) := by
  rw [processEvent, map_fst_map_value]
  refine foldl_invariant _
    (fun m' : List (String × AthleteData) => m'.map (·.1) = m.map (·.1)) _ ?_ m rfl
  intro m' divPair _ h
  refine foldl_invariant _
    (fun m'' : List (String × AthleteData) => m''.map (·.1) = m.map (·.1)) _ ?_ m' h
  intro m'' er _ h2
  rw [map_fst_pushResult, h2]

theorem map_fst_finalAthleteMap (events : List EventRow)
    (regs : List RegistrationRow) (scores : List ScoreRow) :
    (finalAthleteMap events regs scores).map (·.1) =
      (initialAthleteMap regs).map (·.1) := by
  rw [finalAthleteMap]
  refine foldl_invariant _
    (fun m : List (String × AthleteData) =>
      m.map (·.1) = (initialAthleteMap regs).map (·.1)) _ ?_ _ rfl
  intro m ev _ h
  rw [map_fst_processEvent, h]

theorem userId_eq_key_pushResult (m : List (String × AthleteData)) (uid : String)
    (res : AthleteEventResult) (h : ∀ kv ∈ m, kv.2.userId = kv.1) :
    ∀ kv ∈ pushResult m uid res, kv.2.userId = kv.1 := by
  intro kv hkv
  rw [pushResult] at hkv
  cases hl : m.lookup uid with
  | none =>
    rw [hl] at hkv
    exact h kv hkv
  | some a =>
    rw [hl] at hkv
    rcases mem_mapSet _ _ _ kv hkv with h1 | h1
    · exact h kv h1
    · rw [h1]
      have := h (uid, a) (lookup_mem m uid a hl)
      simpa using this

theorem userId_eq_key_processEvent (allScores : List ScoreRow)
    (m : List (String × AthleteData)) (ev : EventRow)
    (h : ∀ kv ∈ m, kv.2.userId = kv.1) :
    ∀ kv ∈ processEvent allScores m ev, kv.2.userId = kv.1 := by
  rw [processEvent]
  have h1 : ∀ kv ∈ (divisionScoresFor m ev.id allScores).foldl
      (fun m' divPair =>
        (rankDivision divPair.2).foldl
          (fun m'' er => pushResult m'' er.1.userId (eventResult ev er))
          m')
      m, kv.2.userId = kv.1 := by
    refine foldl_invariant _
      (fun m' : List (String × AthleteData) => ∀ kv ∈ m', kv.2.userId = kv.1) _ ?_ m h
    intro m' divPair _ hP
    refine foldl_invariant _
      (fun m'' : List (String × AthleteData) => ∀ kv ∈ m'', kv.2.userId = kv.1) _ ?_ m' hP
    intro m'' er _ hP2
    exact userId_eq_key_pushResult _ _ _ hP2
  intro kv hkv
  rcases List.mem_map.mp hkv with ⟨kv0, hkv0, he⟩
  have h2 := h1 kv0 hkv0
  rw [← he]
  simp only [placeholderUpdate]
  split
  · exact h2
  · simpa using h2

theorem userId_eq_key_finalAthleteMap (events : List EventRow)
    (regs : List RegistrationRow) (scores : List ScoreRow) :
    ∀ kv ∈ finalAthleteMap events regs scores, kv.2.userId = kv.1 := by
  rw [finalAthleteMap]
  refine foldl_invariant _
    (fun m : List (String × AthleteData) => ∀ kv ∈ m, kv.2.userId = kv.1) _ ?_ _
    (userId_eq_key_initialAthleteMap regs)
  intro m ev _ h
  exact userId_eq_key_processEvent _ m ev h

/-! ### Flattening the concrete groupings -/

theorem divisionGroupsFor_flatten (m : List (String × AthleteData)) :
    (((divisionGroupsFor m).map (fun dv => dv.2.athletes)).flatten).Perm
      (m.map (fun kv => toLeaderboardAthlete kv.2)) := by
  have h := flatten_proj_foldl_perm (fun d : DivisionLeaderboard => d.athletes)
    (fun acc kv =>
      let a := kv.2
      let div := (acc.lookup a.divisionId).getD
        { id := a.divisionId, name := a.divisionLabel, athletes := [] }
      mapSet acc a.divisionId
        { div with athletes := div.athletes ++ [toLeaderboardAthlete a] })
    (fun kv => some (toLeaderboardAthlete kv.2)) m
    (by
      intro acc r
      constructor
      · intro hn
        exact absurd hn (by simp)
      · intro x hx
        simp only [Option.some.injEq] at hx
        subst hx
        refine flatten_proj_mapSet_append (fun d : DivisionLeaderboard => d.athletes)
          acc r.2.divisionId _ (toLeaderboardAthlete r.2) ?_
        cases hl : acc.lookup r.2.divisionId with
        | none => simp [hl]
        | some cur => simp [hl])
    []
  simp only [List.map_nil, List.flatten_nil, List.nil_append] at h
  rw [divisionGroupsFor]
  refine h.trans ?_
  rw [show (fun kv : String × AthleteData => some (toLeaderboardAthlete kv.2)) =
      some ∘ (fun kv : String × AthleteData => toLeaderboardAthlete kv.2) from rfl,
    List.filterMap_eq_map]

theorem gymAthleteIdsFor_flatten (m : List (String × AthleteData)) :
    (((gymAthleteIdsFor m).map (fun gv => gv.2)).flatten).Perm
      (m.map (fun kv => kv.2.userId)) := by
  have h := flatten_proj_foldl_perm (fun l : List String => l)
    (fun acc kv =>
      let a := kv.2
      mapSet acc a.affiliateName (((acc.lookup a.affiliateName).getD []) ++ [a.userId]))
    (fun kv => some kv.2.userId) m
    (by
      intro acc r
      constructor
      · intro hn
        exact absurd hn (by simp)
      · intro x hx
        simp only [Option.some.injEq] at hx
        subst hx
        refine flatten_proj_mapSet_append (fun l : List String => l)
          acc r.2.affiliateName _ r.2.userId ?_
        cases hl : acc.lookup r.2.affiliateName with
        | none => simp [hl]
        | some cur => simp [hl])
    []
  simp only [List.map_nil, List.flatten_nil, List.nil_append] at h
  rw [gymAthleteIdsFor]
  refine h.trans ?_
  rw [show (fun kv : String × AthleteData => some kv.2.userId) =
      some ∘ (fun kv : String × AthleteData => kv.2.userId) from rfl,
    List.filterMap_eq_map]

theorem byDivFor_flatten (m : List (String × AthleteData)) (userIds : List String)
    (eventId : String) :
    (((byDivFor m userIds eventId).map (fun dv => dv.2)).flatten).Perm
      (userIds.filterMap (fun uid =>
        match m.lookup uid with
        | none => none
        | some a => some (uid, pointsFor a eventId))) := by
  have h := flatten_proj_foldl_perm (fun l : List (String × Int) => l)
    (fun acc uid =>
      match m.lookup uid with
      | none => acc
      | some athlete =>
        let pts := pointsFor athlete eventId
        mapSet acc athlete.divisionLabel
          (((acc.lookup athlete.divisionLabel).getD []) ++ [(uid, pts)]))
    (fun uid =>
      match m.lookup uid with
      | none => none
      | some a => some (uid, pointsFor a eventId)) userIds
    (by
      intro acc uid
      constructor
      · intro hn
        dsimp only at hn ⊢
        cases hl : m.lookup uid with
        | none => simp [hl]
        | some a => rw [hl] at hn; simp at hn
      · intro x hx
        dsimp only at hx ⊢
        cases hl : m.lookup uid with
        | none => rw [hl] at hx; simp at hx
        | some a =>
          rw [hl] at hx
          simp only [Option.some.injEq] at hx
          subst hx
          simp only [hl]
          refine flatten_proj_mapSet_append (fun l : List (String × Int) => l)
            acc a.divisionLabel _ (uid, pointsFor a eventId) ?_
          cases hl2 : acc.lookup a.divisionLabel with
          | none => simp [hl2]
          | some cur => simp [hl2])
    []
  simp only [List.map_nil, List.flatten_nil, List.nil_append] at h
  rw [byDivFor]
  exact h

theorem divisionScoresFor_flatten (m : List (String × AthleteData))
    (eventId : String) (allScores : List ScoreRow) :
    (((divisionScoresFor m eventId allScores).map (fun dv => dv.2)).flatten).Perm
      (allScores.filterMap (fun s =>
        if s.competitionEventId ≠ eventId then none
        else match m.lookup s.userId with
          | none => none
          | some _ => some (toScoreEntry s))) := by
  have h := flatten_proj_foldl_perm (fun l : List ScoreEntry => l)
    (fun acc s =>
      if s.competitionEventId ≠ eventId then acc
      else
        match m.lookup s.userId with
        | none => acc
        | some athlete =>
          mapSet acc athlete.divisionId
            (((acc.lookup athlete.divisionId).getD []) ++ [toScoreEntry s]))
    (fun s =>
      if s.competitionEventId ≠ eventId then none
      else match m.lookup s.userId with
        | none => none
        | some _ => some (toScoreEntry s)) allScores
    (by
      intro acc s
      constructor
      · intro hn
        dsimp only at hn ⊢
        by_cases he : s.competitionEventId ≠ eventId
        · simp [he]
        · rw [if_neg he] at hn
          rw [if_neg he]
          cases hl : m.lookup s.userId with
          | none => simp
          | some a => rw [hl] at hn; simp at hn
      · intro x hx
        dsimp only at hx ⊢
        by_cases he : s.competitionEventId ≠ eventId
        · rw [if_pos he] at hx; simp at hx
        · rw [if_neg he] at hx
          rw [if_neg he]
          cases hl : m.lookup s.userId with
          | none => rw [hl] at hx; simp at hx
          | some a =>
            rw [hl] at hx
            simp only [Option.some.injEq] at hx
            subst hx
            simp only [hl]
            refine flatten_proj_mapSet_append (fun l : List ScoreEntry => l)
              acc a.divisionId _ (toScoreEntry s) ?_
            cases hl2 : acc.lookup a.divisionId with
            | none => simp [hl2]
            | some cur => simp [hl2])
    []
  simp only [List.map_nil, List.flatten_nil, List.nil_append] at h
  rw [divisionScoresFor]
  exact h

/-! ### Claim C10 -/

theorem count_key_finalAthleteMap_le_one (events : List EventRow)
    (regs : List RegistrationRow) (scores : List ScoreRow) (uid : String) :
    ((finalAthleteMap events regs scores).map (·.1)).count uid ≤ 1 := by
  rw [map_fst_finalAthleteMap]
  exact List.nodup_iff_count_le_one.mp (nodup_keys_initialAthleteMap regs) uid

theorem gym_flatten_perm_keys (events : List EventRow)
    (regs : List RegistrationRow) (scores : List ScoreRow) :
    (((gymAthleteIdsFor (finalAthleteMap events regs scores)).map
      (fun gv => gv.2)).flatten).Perm
      ((finalAthleteMap events regs scores).map (·.1)) := by
  refine (gymAthleteIdsFor_flatten _).trans ?_
  rw [List.map_congr_left
    (fun kv hkv => userId_eq_key_finalAthleteMap events regs scores kv hkv)]

theorem athletes_length_buildGym (m : List (String × AthleteData))
    (events : List EventRow) (rankMap : List (String × Nat)) (gymName : Json)
    (userIds : List String) :
    (buildGym m events rankMap gymName userIds).athletes.length =
      (buildGym m events rankMap gymName userIds).athleteCount := by
  simp [buildGym, List.length_insertionSort]

theorem athletes_length_rankGyms (gyms0 : List GymLeaderboard)
    (hg : ∀ g ∈ gyms0, g.athletes.length = g.athleteCount) :
    ∀ g ∈ rankGyms gyms0, g.athletes.length = g.athleteCount := by
  intro g hmem
  rw [rankGyms] at hmem
  obtain ⟨y, r, hy, he⟩ := mem_denseRankAux _ _ _ 0 1 none g hmem
  have hy2 : y ∈ gyms0.filter (fun g => 0 < g.athleteCount) :=
    (List.perm_insertionSort _ _).mem_iff.mp hy
  have hy3 : y ∈ gyms0 := List.mem_of_mem_filter hy2
  rw [he]
  exact hg y hy3

/-- C10: duplicate non-REMOVED registrations of one user collapse to a
single athlete record built from the last such registration; every userId
keys at most one record, appears in at most one division leaderboard entry
across all divisions, and appears at most once in the gym grouping, each
gym listing exactly one entry per grouped athlete. -/
theorem claimC10_unique_athlete_per_user (comp : Competition) (track : Option String)
    (events : List EventRow) (registrations : List RegistrationRow)
    (scores : List ScoreRow) (uid : String) :
    ((initialAthleteMap (eligibleRegs registrations)).lookup uid =
      (((eligibleRegs registrations).filter (fun r => r.userId == uid)).getLast?).map
        mkAthlete) ∧
    (((getLeaderboard comp track events registrations scores).divisions.map
        (fun d => (d.athletes.filter (fun a => a.userId == uid)).length)).sum ≤ 1) ∧
    (∀ gv ∈ gymAthleteIdsFor (finalAthleteMap events (eligibleRegs registrations) scores),
      gv.2.Nodup) ∧
    (((gymAthleteIdsFor (finalAthleteMap events (eligibleRegs registrations) scores)).map
        (fun gv => (gv.2.filter (fun u => u == uid)).length)).sum ≤ 1) ∧
    (∀ g ∈ (getLeaderboard comp track events registrations scores).gyms,
      g.athletes.length = g.athleteCount) := by
  have hdivcount : ∀ (m : List (String × AthleteData)),
      (m.map (·.1)).Nodup → (∀ kv ∈ m, kv.2.userId = kv.1) →
      (((buildDivisions m).map
        (fun d => (d.athletes.filter (fun a => a.userId == uid)).length)).sum ≤ 1) := by
    intro m hnodup hinv
    have h1 : (buildDivisions m).map
        (fun d => (d.athletes.filter (fun a => a.userId == uid)).length) =
        (divisionGroupsFor m).map
          (fun dv => dv.2.athletes.countP (fun a => a.userId == uid)) := by
      rw [buildDivisions, List.map_map]
      refine List.map_congr_left ?_
      intro dv _
      simp only [Function.comp_apply]
      rw [← List.countP_eq_length_filter]
      rw [countP_denseRank (fun x : LeaderboardAthlete => x.totalPoints)
        (fun a r => { a with rank := r }) (fun a => a.userId == uid)
        (fun x r => rfl)]
      exact (List.perm_insertionSort _ _).countP_eq _
    rw [h1]
    have h2 := (List.countP_flatten (fun a => a.userId == uid)
      ((divisionGroupsFor m).map (fun dv => dv.2.athletes))).symm
    rw [List.map_map] at h2
    have h3 : ((divisionGroupsFor m).map
        (fun dv => dv.2.athletes.countP (fun a => a.userId == uid))).sum =
        (((divisionGroupsFor m).map (fun dv => dv.2.athletes)).flatten).countP
          (fun a => a.userId == uid) := by
      rw [List.countP_flatten, List.map_map]
      rfl
    rw [h3]
    rw [(divisionGroupsFor_flatten m).countP_eq]
    rw [List.countP_map]
    have h4 : List.countP
        ((fun a : LeaderboardAthlete => a.userId == uid) ∘
          (fun kv : String × AthleteData => toLeaderboardAthlete kv.2)) m =
        List.countP (fun kv : String × AthleteData => kv.1 == uid) m := by
      refine List.countP_congr ?_
      intro kv hkv
      simp only [Function.comp_apply, toLeaderboardAthlete]
      rw [hinv kv hkv]
    rw [h4]
    have h5 : List.countP (fun kv : String × AthleteData => kv.1 == uid) m =
        (m.map (·.1)).count uid := by
      rw [List.count_eq_countP, List.countP_map]
      rfl
    rw [h5]
    exact List.nodup_iff_count_le_one.mp hnodup uid
  have hgymcount : ∀ (m : List (String × AthleteData)),
      (m.map (·.1)).Nodup → (∀ kv ∈ m, kv.2.userId = kv.1) →
      ((((gymAthleteIdsFor m).map
        (fun gv => (gv.2.filter (fun u => u == uid)).length)).sum ≤ 1) ∧
      (∀ gv ∈ gymAthleteIdsFor m, gv.2.Nodup)) := by
    intro m hnodup hinv
    have hperm : (((gymAthleteIdsFor m).map (fun gv => gv.2)).flatten).Perm
        (m.map (·.1)) := by
      refine (gymAthleteIdsFor_flatten m).trans ?_
      rw [List.map_congr_left (fun kv hkv => hinv kv hkv)]
    constructor
    · have h1 : ((gymAthleteIdsFor m).map
          (fun gv => (gv.2.filter (fun u => u == uid)).length)).sum =
          (((gymAthleteIdsFor m).map (fun gv => gv.2)).flatten).countP
            (fun u => u == uid) := by
        rw [List.countP_flatten, List.map_map]
        congr 1
        refine List.map_congr_left ?_
        intro gv _
        simp only [Function.comp_apply]
        rw [← List.countP_eq_length_filter]
      rw [h1, hperm.countP_eq, ← List.count_eq_countP]
      exact List.nodup_iff_count_le_one.mp hnodup uid
    · have hflat : (((gymAthleteIdsFor m).map (fun gv => gv.2)).flatten).Nodup :=
        hperm.symm.nodup hnodup
      intro gv hgv
      exact (List.nodup_flatten.mp hflat).1 gv.2
        (List.mem_map_of_mem (fun gv => gv.2) hgv)
  have hnodupF : ((finalAthleteMap events (eligibleRegs registrations) scores).map
      (·.1)).Nodup := by
    rw [map_fst_finalAthleteMap]
    exact nodup_keys_initialAthleteMap _
  have hinvF := userId_eq_key_finalAthleteMap events (eligibleRegs registrations) scores
  refine ⟨lookup_initialAthleteMap _ uid, ?_, (hgymcount _ hnodupF hinvF).2,
    (hgymcount _ hnodupF hinvF).1, ?_⟩
  · cases track with
    | none => simp [getLeaderboard]
    | some t =>
      by_cases he : events.length = 0
      · simp [getLeaderboard, he]
      · by_cases hr : (eligibleRegs registrations).length = 0
        · simp [getLeaderboard, he, hr]
        · have hout : (getLeaderboard comp (some t) events registrations
              scores).divisions = buildDivisions (finalAthleteMap events
              (eligibleRegs registrations) scores) := by
            simp only [getLeaderboard, if_neg he, if_neg hr]
          rw [hout]
          exact hdivcount _ hnodupF hinvF
  · cases track with
    | none => intro g hg; simp [getLeaderboard] at hg
    | some t =>
      by_cases he : events.length = 0
      · intro g hg
        simp [getLeaderboard, he] at hg
      · by_cases hr : (eligibleRegs registrations).length = 0
        · intro g hg
          simp [getLeaderboard, he, hr] at hg
        · have hout : (getLeaderboard comp (some t) events registrations
              scores).gyms = rankGyms ((gymAthleteIdsFor (finalAthleteMap events
              (eligibleRegs registrations) scores)).map
              (fun gv => buildGym (finalAthleteMap events
                (eligibleRegs registrations) scores) events
                (divisionRankMapFor (buildDivisions (finalAthleteMap events
                  (eligibleRegs registrations) scores))) gv.1 gv.2)) := by
            simp only [getLeaderboard, if_neg he, if_neg hr]
          rw [hout]
          refine athletes_length_rankGyms _ ?_
          intro g hg
          rcases List.mem_map.mp hg with ⟨gv, _, he2⟩
          rw [← he2]
          exact athletes_length_buildGym _ _ _ _ _

theorem claimC10_unique_athlete_per_user_witness :
    ((initialAthleteMap (eligibleRegs exC10Regs)).lookup "u1" =
      some (mkAthlete
        { regId := "r2", userId := "u1", divisionId := some "a", metadata := none,
          firstName := some "New", lastName := none, divisionLabel := some "A",
          status := "ACTIVE" })) ∧
    (((getLeaderboard exComp (some "t") exC6Events exC10Regs []).divisions.map
        (fun d => (d.athletes.filter (fun a => a.userId == "u1")).length)).sum ≤ 1) ∧
    ((Json.str "Unaffiliated", ["u1"]) ∈
      gymAthleteIdsFor (finalAthleteMap exC6Events (eligibleRegs exC10Regs) []) ∧
      (["u1"] : List String).Nodup) ∧
    (((gymAthleteIdsFor (finalAthleteMap exC6Events (eligibleRegs exC10Regs) [])).map
        (fun gv => (gv.2.filter (fun u => u == "u1")).length)).sum ≤ 1) ∧
    (exC10Gym ∈ (getLeaderboard exComp (some "t") exC6Events exC10Regs []).gyms ∧
      exC10Gym.athletes.length = exC10Gym.athleteCount) := by
  have h := claimC10_unique_athlete_per_user exComp (some "t") exC6Events exC10Regs [] "u1"
  refine ⟨h.1.trans (by decide), h.2.1, ⟨by decide, ?_⟩, h.2.2.2.1, ⟨by decide, ?_⟩⟩
  · exact h.2.2.1 (Json.str "Unaffiliated", ["u1"]) (by decide)
  · exact h.2.2.2.2 exC10Gym (by decide)

/-! ### Counting pushed results (claim C1 infrastructure) -/

theorem countP_and_add_le (p f g : α → Bool) (l : List α)
    (h : ∀ x ∈ l, ¬(f x = true ∧ g x = true)) :
    (l.countP (fun x => p x && f x)) + (l.countP (fun x => p x && g x)) ≤
      l.countP p := by
  induction l with
  | nil => simp
  | cons x xs ih =>
    have hx := h x (List.mem_cons_self _ _)
    have ihx := ih (fun y hy => h y (List.mem_cons_of_mem _ hy))
    simp only [List.countP_cons]
    have hcase : ((if (p x && f x) = true then 1 else 0) : Nat) +
        (if (p x && g x) = true then 1 else 0) ≤ (if p x = true then 1 else 0) := by
      by_cases hp : p x = true
      · by_cases hf : f x = true
        · have hg : g x = false := by
            rcases Bool.eq_false_or_eq_true (g x) with h2 | h2
            · exact absurd ⟨hf, h2⟩ hx
            · exact h2
          simp [hp, hf, hg]
        · have hf' : f x = false := Bool.eq_false_iff.mpr hf
          by_cases hg : g x = true
          · simp [hp, hf', hg]
          · have hg' : g x = false := Bool.eq_false_iff.mpr hg
            simp [hp, hf', hg']
      · have hp' : p x = false := Bool.eq_false_iff.mpr hp
        simp [hp']
    omega

theorem countP_unique_rows (l : List ScoreRow)
    (hp : l.Pairwise (fun s t =>
      s.userId ≠ t.userId ∨ s.competitionEventId ≠ t.competitionEventId))
    (uid eid : String) :
    l.countP (fun s => s.userId == uid && s.competitionEventId == eid) ≤ 1 := by
  induction l with
  | nil => simp
  | cons s rest ih =>
    rw [List.pairwise_cons] at hp
    rw [List.countP_cons]
    by_cases hs : (s.userId == uid && s.competitionEventId == eid) = true
    · have hz : rest.countP (fun t => t.userId == uid && t.competitionEventId == eid) = 0 := by
        rw [List.countP_eq_zero]
        intro t ht hmatch
        rcases hp.1 t ht with hne | hne
        · rw [Bool.and_eq_true, beq_iff_eq, beq_iff_eq] at hs hmatch
          exact hne (hs.1.trans hmatch.1.symm)
        · rw [Bool.and_eq_true, beq_iff_eq, beq_iff_eq] at hs hmatch
          exact hne (hs.2.trans hmatch.2.symm)
      rw [hz]
      simp [hs]
    · have := ih hp.2
      simp [Bool.eq_false_iff.mpr hs]
      omega

theorem countP_fst_eq (p : ScoreEntry → Bool) (l : List (ScoreEntry × Nat)) :
    l.countP (fun er => p er.1) = (l.map (·.1)).countP p := by
  rw [List.countP_map]
  rfl

theorem statuses_disjoint (e : ScoreEntry) :
    ¬((e.status == "scored" || e.status == "cap") = true ∧ (e.status == "dnf") = true) := by
  rintro ⟨h1, h2⟩
  rw [beq_iff_eq] at h2
  rw [Bool.or_eq_true, beq_iff_eq, beq_iff_eq, h2] at h1
  rcases h1 with h | h <;> simp at h

theorem countP_rankDivision_le (b : List ScoreEntry) (p : ScoreEntry → Bool) :
    (rankDivision b).countP (fun er => p er.1) ≤ b.countP p := by
  rw [rankDivision]
  simp only [List.countP_append]
  have h1 : (assignRanks (List.insertionSort (fun a b => scoreCmpLe a b = true)
      (b.filter (fun s => s.status == "scored" || s.status == "cap")))).countP
        (fun er => p er.1) =
      b.countP (fun s => p s && (s.status == "scored" || s.status == "cap")) := by
    rw [countP_fst_eq, assignRanks_map_fst]
    rw [(List.perm_insertionSort (fun a b => scoreCmpLe a b = true) _).countP_eq]
    rw [List.countP_filter]
  have h2 : ((b.filter (fun s => s.status == "dnf")).map
      (fun e => (e, ((assignRanks (List.insertionSort
        (fun a b => scoreCmpLe a b = true)
        (b.filter (fun s => s.status == "scored" || s.status == "cap")))).getLast?.map
          (·.2)).getD 0 + 1))).countP (fun er => p er.1) =
      b.countP (fun s => p s && (s.status == "dnf")) := by
    rw [List.countP_map]
    have : ((fun er : ScoreEntry × Nat => p er.1) ∘ (fun e : ScoreEntry =>
        (e, ((assignRanks (List.insertionSort (fun a b => scoreCmpLe a b = true)
          (b.filter (fun s => s.status == "scored" || s.status == "cap")))).getLast?.map
            (·.2)).getD 0 + 1))) = p := by
      funext e
      rfl
    rw [this, ← List.countP_filter]
  rw [h1, h2]
  exact countP_and_add_le p _ _ b (fun x _ => statuses_disjoint x)

theorem push_count_le_one (m : List (String × AthleteData)) (ev : EventRow)
    (allScores : List ScoreRow) (uid : String)
    (hsc : allScores.Pairwise (fun s t =>
      s.userId ≠ t.userId ∨ s.competitionEventId ≠ t.competitionEventId)) :
    (((divisionScoresFor m ev.id allScores).map
      (fun dv => rankDivision dv.2)).flatten).countP
        (fun er => er.1.userId == uid) ≤ 1 := by
  rw [List.countP_flatten, List.map_map]
  have h1 : (((divisionScoresFor m ev.id allScores).map
      ((List.countP (fun er => er.1.userId == uid)) ∘
        (fun dv => rankDivision dv.2))).sum) ≤
      (((divisionScoresFor m ev.id allScores).map
        (fun dv => dv.2.countP (fun e => e.userId == uid))).sum) := by
    refine List.sum_le_sum ?_
    intro dv _
    exact countP_rankDivision_le dv.2 (fun e => e.userId == uid)
  refine le_trans h1 ?_
  have h2 : (((divisionScoresFor m ev.id allScores).map
      (fun dv => dv.2.countP (fun e => e.userId == uid))).sum) =
      (((divisionScoresFor m ev.id allScores).map (fun dv => dv.2)).flatten).countP
        (fun e => e.userId == uid) := by
    rw [List.countP_flatten, List.map_map]
    rfl
  rw [h2, (divisionScoresFor_flatten m ev.id allScores).countP_eq]
  rw [List.countP_filterMap]
  have h3 : allScores.countP (fun s =>
      ((Option.map (fun e : ScoreEntry => e.userId == uid)
        (if s.competitionEventId ≠ ev.id then none
         else match m.lookup s.userId with
           | none => none
           | some _ => some (toScoreEntry s))).getD false)) ≤
      allScores.countP (fun s => s.userId == uid && s.competitionEventId == ev.id) := by
    refine List.countP_mono_left ?_
    intro s _ hs
    by_cases he : s.competitionEventId ≠ ev.id
    · rw [if_pos he] at hs
      simp at hs
    · rw [if_neg he] at hs
      push_neg at he
      cases hl : m.lookup s.userId with
      | none =>
        rw [hl] at hs
        simp at hs
      | some a =>
        rw [hl] at hs
        simp only [Option.map_some, Option.getD_some, toScoreEntry] at hs
        rw [Bool.and_eq_true, beq_iff_eq, beq_iff_eq]
        exact ⟨beq_iff_eq.mp hs, he⟩
  refine le_trans h3 ?_
  exact countP_unique_rows allScores hsc uid ev.id

theorem lookup_foldl_pushResult (ev : EventRow) (ps : List (ScoreEntry × Nat))
    (uid : String) :
    ∀ (m : List (String × AthleteData)) (a : AthleteData), m.lookup uid = some a →
      ((ps.foldl (fun m'' er => pushResult m'' er.1.userId (eventResult ev er)) m).lookup
          uid) =
        some { a with
          events := a.events ++
            ((ps.filter (fun er => er.1.userId == uid)).map (eventResult ev)),
          totalPoints := a.totalPoints +
            (((ps.filter (fun er => er.1.userId == uid)).map
              (fun er => (eventResult ev er).points)).sum) } := by
  induction ps with
  | nil =>
    intro m a h
    simpa using h
  | cons er ps' ih =>
    intro m a h
    rw [List.foldl_cons]
    by_cases hu : er.1.userId = uid
    · have hpush : pushResult m er.1.userId (eventResult ev er) =
          mapSet m uid { a with
            events := a.events ++ [eventResult ev er],
            totalPoints := a.totalPoints + (eventResult ev er).points } := by
        rw [hu, pushResult, h]
      rw [hpush]
      have ih2 := ih (mapSet m uid { a with
          events := a.events ++ [eventResult ev er],
          totalPoints := a.totalPoints + (eventResult ev er).points })
        { a with
          events := a.events ++ [eventResult ev er],
          totalPoints := a.totalPoints + (eventResult ev er).points }
        (lookup_mapSet_self _ _ _)
      rw [ih2]
      rw [List.filter_cons_of_pos (by simpa using hu)]
      simp [List.append_assoc, add_assoc]
    · rw [List.filter_cons_of_neg (by simpa using hu)]
      rw [pushResult]
      cases hl : m.lookup er.1.userId with
      | none => exact ih m a h
      | some b =>
        refine ih _ a ?_
        exact (lookup_mapSet_ne m er.1.userId uid _ (Ne.symm hu)).trans h

theorem lookup_processEvent (allScores : List ScoreRow)
    (m : List (String × AthleteData)) (ev : EventRow) (uid : String)
    (a : AthleteData) (h : m.lookup uid = some a) :
    (processEvent allScores m ev).lookup uid =
      some (placeholderUpdate ev { a with
        events := a.events ++
          (((((divisionScoresFor m ev.id allScores).map
            (fun dv => rankDivision dv.2)).flatten).filter
              (fun er => er.1.userId == uid)).map (eventResult ev)),
        totalPoints := a.totalPoints +
          ((((((divisionScoresFor m ev.id allScores).map
            (fun dv => rankDivision dv.2)).flatten).filter
              (fun er => er.1.userId == uid)).map
                (fun er => (eventResult ev er).points)).sum) }) := by
  show (((((divisionScoresFor m ev.id allScores).foldl
      (fun m' divPair => (rankDivision divPair.2).foldl
        (fun m'' er => pushResult m'' er.1.userId (eventResult ev er)) m') m)).map
          (fun kv => (kv.1, placeholderUpdate ev kv.2))).lookup uid) = _
  have hm1 : (divisionScoresFor m ev.id allScores).foldl
      (fun m' divPair => (rankDivision divPair.2).foldl
        (fun m'' er => pushResult m'' er.1.userId (eventResult ev er)) m') m =
      ((((divisionScoresFor m ev.id allScores).map
        (fun dv => rankDivision dv.2)).flatten).foldl
          (fun m'' er => pushResult m'' er.1.userId (eventResult ev er)) m) := by
    rw [List.foldl_flatten, List.foldl_map]
  rw [hm1, lookup_map_value (placeholderUpdate ev)]
  rw [lookup_foldl_pushResult ev _ uid m a h]
  rfl

theorem lookup_of_mem_nodup [BEq κ] [LawfulBEq κ] (m : List (κ × β))
    (hnodup : (m.map (·.1)).Nodup) (kv : κ × β) (hm : kv ∈ m) :
    m.lookup kv.1 = some kv.2 := by
  induction m with
  | nil => simp at hm
  | cons kv1 rest ih =>
    rcases kv1 with ⟨k1, v1⟩
    rcases List.mem_cons.mp hm with h1 | h1
    · subst h1
      simp [List.lookup]
    · have hne : kv.1 ≠ k1 := by
        intro he
        rw [List.map_cons, List.nodup_cons] at hnodup
        exact hnodup.1 (he ▸ List.mem_map_of_mem (·.1) h1)
      rw [List.lookup_cons, Bool.eq_false_iff.mpr
        (fun hb => hne (eq_of_beq hb))]
      exact ih (by
        rw [List.map_cons, List.nodup_cons] at hnodup
        exact hnodup.2) h1

theorem invariant_processEvent (allScores : List ScoreRow) (ev : EventRow)
    (ids : List String) (m : List (String × AthleteData))
    (hnodup : (m.map (·.1)).Nodup)
    (hsc : allScores.Pairwise (fun s t =>
      s.userId ≠ t.userId ∨ s.competitionEventId ≠ t.competitionEventId))
    (hfresh : ev.id ∉ ids)
    (hP : ∀ kv ∈ m, kv.2.events.length = ids.length ∧
        kv.2.totalPoints = (kv.2.events.map (·.points)).sum ∧
        ∀ r ∈ kv.2.events, r.eventId ∈ ids) :
    ∀ kv ∈ processEvent allScores m ev,
      kv.2.events.length = ids.length + 1 ∧
      kv.2.totalPoints = (kv.2.events.map (·.points)).sum ∧
      ∀ r ∈ kv.2.events, r.eventId ∈ ids ++ [ev.id] := by
  intro kv hkv
  have hnodup2 : ((processEvent allScores m ev).map (·.1)).Nodup := by
    rw [map_fst_processEvent]
    exact hnodup
  have hlk2 : (processEvent allScores m ev).lookup kv.1 = some kv.2 :=
    lookup_of_mem_nodup _ hnodup2 kv hkv
  have hkey : kv.1 ∈ m.map (·.1) := by
    rw [← map_fst_processEvent allScores m ev]
    exact List.mem_map_of_mem (·.1) hkv
  obtain ⟨a, ha⟩ := Option.isSome_iff_exists.mp (lookup_isSome_of_mem_keys m kv.1 hkey)
  have hPa := hP (kv.1, a) (lookup_mem m kv.1 a ha)
  have hchar := lookup_processEvent allScores m ev kv.1 a ha
  rw [hlk2] at hchar
  have hkv2 : kv.2 = placeholderUpdate ev { a with
      events := a.events ++
        (((((divisionScoresFor m ev.id allScores).map
          (fun dv => rankDivision dv.2)).flatten).filter
            (fun er => er.1.userId == kv.1)).map (eventResult ev)),
      totalPoints := a.totalPoints +
        ((((((divisionScoresFor m ev.id allScores).map
          (fun dv => rankDivision dv.2)).flatten).filter
            (fun er => er.1.userId == kv.1)).map
              (fun er => (eventResult ev er).points)).sum) } := by
    exact Option.some.inj hchar
  have hcap : ((((divisionScoresFor m ev.id allScores).map
      (fun dv => rankDivision dv.2)).flatten).filter
        (fun er => er.1.userId == kv.1)).length ≤ 1 := by
    rw [← List.countP_eq_length_filter]
    exact push_count_le_one m ev allScores kv.1 hsc
  have holdany : a.events.any (fun e => e.eventId == ev.id) = false := by
    rw [List.any_eq_false]
    intro r hr hbe
    exact hfresh (beq_iff_eq.mp hbe ▸ hPa.2.2 r hr)
  rcases hL : (((divisionScoresFor m ev.id allScores).map
      (fun dv => rankDivision dv.2)).flatten).filter
        (fun er => er.1.userId == kv.1) with _ | ⟨er, L'⟩
  · rw [hL] at hkv2
    simp only [List.map_nil, List.append_nil, List.sum_nil, add_zero,
      placeholderUpdate] at hkv2
    rw [if_neg (by simp [holdany])] at hkv2
    rw [hkv2]
    refine ⟨?_, ?_, ?_⟩
    · simp [hPa.1]
    · simpa using hPa.2.1
    · intro r hr
      simp only [List.mem_append] at hr ⊢
      rcases hr with hr | hr
      · exact Or.inl (hPa.2.2 r hr)
      · simp only [List.mem_singleton] at hr
        rw [hr]
        simp
  · have hL' : L' = [] := by
      have h2 := hcap
      rw [hL] at h2
      simp only [List.length_cons] at h2
      exact List.eq_nil_of_length_eq_zero (by omega)
    subst hL'
    rw [hL] at hkv2
    simp only [List.map_cons, List.map_nil, placeholderUpdate] at hkv2
    rw [if_pos (by
      rw [List.any_append, holdany]
      simp [eventResult])] at hkv2
    rw [hkv2]
    refine ⟨?_, ?_, ?_⟩
    · simp [hPa.1]
    · simpa using hPa.2.1
    · intro r hr
      simp only [List.mem_append] at hr ⊢
      rcases hr with hr | hr
      · exact Or.inl (hPa.2.2 r hr)
      · simp only [List.mem_singleton] at hr
        rw [hr]
        simp [eventResult]

theorem invariant_processAll (allScores : List ScoreRow)
    (hsc : allScores.Pairwise (fun s t =>
      s.userId ≠ t.userId ∨ s.competitionEventId ≠ t.competitionEventId)) :
    ∀ (evs : List EventRow) (ids : List String) (m : List (String × AthleteData)),
      (m.map (·.1)).Nodup →
      (∀ e ∈ evs, e.id ∉ ids) →
      ((evs.map (·.id)).Nodup) →
      (∀ kv ∈ m, kv.2.events.length = ids.length ∧
        kv.2.totalPoints = (kv.2.events.map (·.points)).sum ∧
        ∀ r ∈ kv.2.events, r.eventId ∈ ids) →
      ∀ kv ∈ evs.foldl (processEvent allScores) m,
        kv.2.events.length = ids.length + evs.length ∧
        kv.2.totalPoints = (kv.2.events.map (·.points)).sum ∧
        ∀ r ∈ kv.2.events, r.eventId ∈ ids ++ evs.map (·.id) := by
  intro evs
  induction evs with
  | nil =>
    intro ids m _ _ _ hP kv hkv
    obtain ⟨h1, h2, h3⟩ := hP kv hkv
    exact ⟨by simpa using h1, h2, fun r hr => by simpa using h3 r hr⟩
  | cons ev evs' ih =>
    intro ids m hnodup hni hevnodup hP kv hkv
    rw [List.foldl_cons] at hkv
    have hfresh : ev.id ∉ ids := hni ev (List.mem_cons_self _ _)
    have hstep := invariant_processEvent allScores ev ids m hnodup hsc hfresh hP
    have hnodup2 : ((processEvent allScores m ev).map (·.1)).Nodup := by
      rw [map_fst_processEvent]
      exact hnodup
    have hni2 : ∀ e ∈ evs', e.id ∉ ids ++ [ev.id] := by
      intro e he
      rw [List.mem_append, List.mem_singleton]
      rintro (h1 | h1)
      · exact hni e (List.mem_cons_of_mem _ he) h1
      · rw [List.map_cons, List.nodup_cons] at hevnodup
        exact hevnodup.1 (h1 ▸ List.mem_map_of_mem (·.id) he)
    have hevnodup2 : (evs'.map (·.id)).Nodup := by
      rw [List.map_cons, List.nodup_cons] at hevnodup
      exact hevnodup.2
    have hP2 : ∀ kv ∈ processEvent allScores m ev,
        kv.2.events.length = (ids ++ [ev.id]).length ∧
        kv.2.totalPoints = (kv.2.events.map (·.points)).sum ∧
        ∀ r ∈ kv.2.events, r.eventId ∈ ids ++ [ev.id] := by
      intro kv2 hkv2
      obtain ⟨h1, h2, h3⟩ := hstep kv2 hkv2
      exact ⟨by simpa using h1, h2, h3⟩
    obtain ⟨h1, h2, h3⟩ := ih (ids ++ [ev.id]) (processEvent allScores m ev)
      hnodup2 hni2 hevnodup2 hP2 kv hkv
    refine ⟨by rw [h1]; simp; omega, h2, ?_⟩
    intro r hr
    have := h3 r hr
    simpa [List.append_assoc] using this

theorem initialAthleteMap_blank (regs : List RegistrationRow) :
    ∀ kv ∈ initialAthleteMap regs, kv.2.events = [] ∧ kv.2.totalPoints = 0 := by
  rw [initialAthleteMap]
  refine foldl_invariant _
    (fun m : List (String × AthleteData) =>
      ∀ kv ∈ m, kv.2.events = [] ∧ kv.2.totalPoints = 0) regs ?_ [] (by simp)
  intro m r _ h kv hkv
  rcases mem_mapSet m r.userId (mkAthlete r) kv hkv with h1 | h1
  · exact h kv h1
  · rw [h1]
    exact ⟨rfl, rfl⟩

theorem invariant_finalAthleteMap (events : List EventRow)
    (regs : List RegistrationRow) (scores : List ScoreRow)
    (hev : (events.map (·.id)).Nodup)
    (hsc : scores.Pairwise (fun s t =>
      s.userId ≠ t.userId ∨ s.competitionEventId ≠ t.competitionEventId)) :
    ∀ kv ∈ finalAthleteMap events regs scores,
      kv.2.events.length = events.length ∧
      kv.2.totalPoints = (kv.2.events.map (·.points)).sum := by
  have hsc2 : (filteredScores events regs scores).Pairwise (fun s t =>
      s.userId ≠ t.userId ∨ s.competitionEventId ≠ t.competitionEventId) :=
    List.Pairwise.sublist (List.filter_sublist scores) hsc
  intro kv hkv
  have := invariant_processAll (filteredScores events regs scores) hsc2 events []
    (initialAthleteMap regs) (nodup_keys_initialAthleteMap regs) (by simp) hev
    (by
      intro kv2 hkv2
      obtain ⟨h1, h2⟩ := initialAthleteMap_blank regs kv2 hkv2
      exact ⟨by simp [h1], by simp [h1, h2], by simp [h1]⟩)
    kv hkv
  exact ⟨by simpa using this.1, this.2.1⟩

/-! ### Claim C1 -/

/-- C1: assuming event ids are distinct (they are primary keys in the
schema) and no two score rows share a user and event, every athlete in the
computed leaderboard has exactly one event result per published event — the
events list length equals the number of published events — and the
athlete's totalPoints equals the sum of the points of those results. -/
theorem claimC1_complete_results (comp : Competition) (track : Option String)
    (events : List EventRow) (registrations : List RegistrationRow)
    (scores : List ScoreRow)
    (hev : (events.map (·.id)).Nodup)
    (hsc : scores.Pairwise (fun s t =>
      s.userId ≠ t.userId ∨ s.competitionEventId ≠ t.competitionEventId))
    (div : DivisionLeaderboard)
    (hdiv : div ∈ (getLeaderboard comp track events registrations scores).divisions)
    (a : LeaderboardAthlete) (ha : a ∈ div.athletes) :
    a.events.length = events.length ∧
    a.totalPoints = (a.events.map (·.points)).sum := by
  have hmain : ∀ (m : List (String × AthleteData)),
      (∀ kv ∈ m, kv.2.events.length = events.length ∧
        kv.2.totalPoints = (kv.2.events.map (·.points)).sum) →
      ∀ div' ∈ buildDivisions m, ∀ a' ∈ div'.athletes,
        a'.events.length = events.length ∧
        a'.totalPoints = (a'.events.map (·.points)).sum := by
    intro m hm div' hdiv' a' ha'
    rcases List.mem_map.mp hdiv' with ⟨dv, hdvmem, rfl⟩
    obtain ⟨y, r, hy, ha2⟩ := mem_denseRankAux _ _ _ 0 1 none a' ha'
    have hy2 : y ∈ dv.2.athletes :=
      (List.perm_insertionSort (fun a b => b.totalPoints ≤ a.totalPoints)
        dv.2.athletes).mem_iff.mp hy
    have hy3 : y ∈ ((divisionGroupsFor m).map (fun dv => dv.2.athletes)).flatten :=
      List.mem_flatten.mpr ⟨dv.2.athletes,
        List.mem_map_of_mem (fun dv => dv.2.athletes) hdvmem, hy2⟩
    have hy4 : y ∈ m.map (fun kv => toLeaderboardAthlete kv.2) :=
      (divisionGroupsFor_flatten m).mem_iff.mp hy3
    rcases List.mem_map.mp hy4 with ⟨kv, hkvm, htoLA⟩
    have hkv := hm kv hkvm
    rw [ha2]
    have he : y.events = kv.2.events := by rw [← htoLA]; rfl
    have ht : y.totalPoints = kv.2.totalPoints := by rw [← htoLA]; rfl
    refine ⟨?_, ?_⟩
    · show y.events.length = events.length
      rw [he]
      exact hkv.1
    · show y.totalPoints = (y.events.map (·.points)).sum
      rw [he, ht]
      exact hkv.2
  cases track with
  | none =>
    exfalso
    simp [getLeaderboard] at hdiv
  | some t =>
    by_cases hel : events.length = 0
    · exfalso
      simp [getLeaderboard, hel] at hdiv
    · by_cases hr : (eligibleRegs registrations).length = 0
      · exfalso
        simp [getLeaderboard, hel, hr] at hdiv
      · have hout : (getLeaderboard comp (some t) events registrations
            scores).divisions = buildDivisions (finalAthleteMap events
            (eligibleRegs registrations) scores) := by
          simp only [getLeaderboard, if_neg hel, if_neg hr]
        rw [hout] at hdiv
        exact hmain _
          (fun kv hkv => invariant_finalAthleteMap events (eligibleRegs registrations)
            scores hev hsc kv hkv) div hdiv a ha

theorem claimC1_complete_results_witness :
    ((exC6Events.map (·.id)).Nodup ∧
      exC6Scores.Pairwise (fun s t =>
        s.userId ≠ t.userId ∨ s.competitionEventId ≠ t.competitionEventId) ∧
      exC6Div ∈ (getLeaderboard exComp (some "t") exC6Events exC6Regs
        exC6Scores).divisions ∧
      exC6A0 ∈ exC6Div.athletes) ∧
    (exC6A0.events.length = exC6Events.length ∧
      exC6A0.totalPoints = (exC6A0.events.map (·.points)).sum) :=
  ⟨⟨by decide, by decide, by decide, by decide⟩,
   claimC1_complete_results exComp (some "t") exC6Events exC6Regs exC6Scores
     (by decide) (by decide) exC6Div (by decide) exC6A0 (by decide)⟩

theorem subperm_append_both {l1 l2 t1 t2 : List α} (h1 : l1.Subperm l2)
    (h2 : t1.Subperm t2) : (l1 ++ t1).Subperm (l2 ++ t2) := by
  obtain ⟨u, hu, hs⟩ := h1
  obtain ⟨v, hv, hvs⟩ := h2
  exact ⟨u ++ v, hu.append hv, hs.append hvs⟩

theorem subperm_map_both {l1 l2 : List α} (f : α → β) (h : l1.Subperm l2) :
    (l1.map f).Subperm (l2.map f) := by
  obtain ⟨u, hu, hs⟩ := h
  exact ⟨u.map f, hu.map f, hs.map f⟩

theorem sum_map_add_int (f g : α → Int) (l : List α) :
    (l.map (fun x => f x + g x)).sum = (l.map f).sum + (l.map g).sum := by
  induction l with
  | nil => simp
  | cons x xs ih =>
    simp only [List.map_cons, List.sum_cons, ih]
    ring

theorem sum_map_comm (f : α → β → Int) (l1 : List α) (l2 : List β) :
    (l1.map (fun a => (l2.map (f a)).sum)).sum =
      (l2.map (fun b => (l1.map (fun a => f a b)).sum)).sum := by
  induction l1 with
  | nil => simp
  | cons a l1 ih =>
    simp only [List.map_cons, List.sum_cons, ih]
    rw [← sum_map_add_int]

theorem sum_filter_eq_sum_ite (p : α → Bool) (f : α → Int) (l : List α) :
    ((l.filter p).map f).sum = (l.map (fun x => if p x then f x else 0)).sum := by
  induction l with
  | nil => simp
  | cons x xs ih =>
    rw [List.filter_cons]
    by_cases hp : p x = true
    · simp only [hp, if_pos, List.map_cons, List.sum_cons, ih]
    · simp only [hp, Bool.false_eq_true, if_neg, if_false, List.map_cons,
        List.sum_cons, ih, not_false_iff]
      omega

theorem sum_ite_mem (uids S : List String) (f : String → Int) (hS : S.Nodup)
    (hsub : S ⊆ uids) (hu : uids.Nodup) :
    (uids.map (fun u => if u ∈ S then f u else 0)).sum = (S.map f).sum := by
  induction uids generalizing S with
  | nil =>
    have : S = [] := List.eq_nil_iff_forall_not_mem.mpr
      (fun a ha => by simpa using hsub ha)
    simp [this]
  | cons u us ih =>
    have hnu : u ∉ us := (List.nodup_cons.mp hu).1
    have hus : us.Nodup := (List.nodup_cons.mp hu).2
    by_cases hmem : u ∈ S
    · have hperm : S.Perm (u :: S.erase u) := List.perm_cons_erase hmem
      have hsum : (S.map f).sum = f u + ((S.erase u).map f).sum := by
        rw [(hperm.map f).sum_eq, List.map_cons, List.sum_cons]
      have hcongr : us.map (fun v => if v ∈ S then f v else 0) =
          us.map (fun v => if v ∈ S.erase u then f v else 0) := by
        refine List.map_congr_left ?_
        intro x hx
        have hxne : x ≠ u := fun he => hnu (he ▸ hx)
        by_cases hxS : x ∈ S
        · rw [if_pos hxS, if_pos ((List.mem_erase_of_ne hxne).mpr hxS)]
        · rw [if_neg hxS, if_neg (fun hc => hxS (List.erase_subset u S hc))]
      rw [hsum, List.map_cons, List.sum_cons, if_pos hmem, hcongr]
      congr 1
      refine ih (S.erase u) (hS.erase u) ?_ hus
      intro x hx
      obtain ⟨hxne, hxS⟩ := (List.Nodup.mem_erase_iff hS).mp hx
      rcases List.mem_cons.mp (hsub hxS) with h1 | h1
      · exact absurd h1 hxne
      · exact h1
    · rw [List.map_cons, List.sum_cons, if_neg hmem, zero_add]
      refine ih S hS ?_ hus
      intro x hx
      rcases List.mem_cons.mp (hsub hx) with h1 | h1
      · exact absurd (h1 ▸ hx) hmem
      · exact h1

theorem addId_idem (evId : String) (es : List String) :
    addId evId (addId evId es) = addId evId es := by
  unfold addId
  by_cases h : evId ∈ es
  · simp [h]
  · rw [if_neg h, if_pos (by simp)]

theorem mem_addId (x evId : String) (es : List String) :
    x ∈ addId evId es ↔ x ∈ es ∨ x = evId := by
  unfold addId
  by_cases h : evId ∈ es
  · rw [if_pos h]
    constructor
    · exact Or.inl
    · rintro (hx | rfl)
      · exact hx
      · exact h
  · rw [if_neg h]
    simp [List.mem_append]

theorem selectEvent_eq_flat (m : List (String × AthleteData))
    (userIds : List String) (ev : EventRow)
    (acc : List (String × List String) × Int) :
    selectEvent m userIds ev acc =
      (selectedPairs m userIds ev).foldl (addContrib ev.id) acc := by
  rw [selectedPairs, List.foldl_flatten, List.foldl_map]
  rfl

theorem selFold_lookup (evId : String) (S : List (String × Int)) (uid : String) :
    ∀ (cm : List (String × List String)) (ts : Int),
      (((S.foldl (addContrib evId) (cm, ts)).1.lookup uid).getD []) =
        if uid ∈ S.map (·.1) then addId evId ((cm.lookup uid).getD [])
        else ((cm.lookup uid).getD []) := by
  induction S with
  | nil =>
    intro cm ts
    simp
  | cons sel S ih =>
    intro cm ts
    rw [List.foldl_cons]
    show (((S.foldl (addContrib evId)
        (mapSet cm sel.1 (addId evId ((cm.lookup sel.1).getD [])),
          ts + sel.2)).1.lookup uid).getD []) = _
    rw [ih]
    by_cases he : sel.1 = uid
    · subst he
      rw [lookup_mapSet_self]
      have hhead : sel.1 ∈ (sel :: S).map (·.1) := by simp
      rw [if_pos hhead]
      simp only [Option.getD_some]
      by_cases hm : sel.1 ∈ S.map (·.1)
      · rw [if_pos hm, addId_idem]
      · rw [if_neg hm]
    · rw [lookup_mapSet_ne cm sel.1 uid _ (fun h2 => he h2.symm)]
      have hcond : (uid ∈ (sel :: S).map (·.1)) ↔ (uid ∈ S.map (·.1)) := by
        rw [List.map_cons, List.mem_cons]
        exact or_iff_right (fun h2 => he h2.symm)
      by_cases hm : uid ∈ S.map (·.1)
      · rw [if_pos hm, if_pos (hcond.mpr hm)]
      · rw [if_neg hm, if_neg (fun h2 => hm (hcond.mp h2))]

theorem selFold_snd (evId : String) (S : List (String × Int)) :
    ∀ (cm : List (String × List String)) (ts : Int),
      (S.foldl (addContrib evId) (cm, ts)).2 = ts + (S.map (·.2)).sum := by
  induction S with
  | nil =>
    intro cm ts
    simp
  | cons sel S ih =>
    intro cm ts
    rw [List.foldl_cons]
    show (S.foldl (addContrib evId)
        (mapSet cm sel.1 (addId evId ((cm.lookup sel.1).getD [])),
          ts + sel.2)).2 = _
    rw [ih]
    simp only [List.map_cons, List.sum_cons]
    ring

theorem lookup_selectEvent (m : List (String × AthleteData))
    (userIds : List String) (ev : EventRow)
    (acc : List (String × List String) × Int) (uid : String) :
    (((selectEvent m userIds ev acc).1.lookup uid).getD []) =
      if uid ∈ (selectedPairs m userIds ev).map (·.1)
      then addId ev.id ((acc.1.lookup uid).getD [])
      else ((acc.1.lookup uid).getD []) := by
  rw [selectEvent_eq_flat]
  rcases acc with ⟨cm, ts⟩
  exact selFold_lookup ev.id _ uid cm ts

theorem snd_selectEvent (m : List (String × AthleteData))
    (userIds : List String) (ev : EventRow)
    (acc : List (String × List String) × Int) :
    (selectEvent m userIds ev acc).2 =
      acc.2 + ((selectedPairs m userIds ev).map (·.2)).sum := by
  rw [selectEvent_eq_flat]
  rcases acc with ⟨cm, ts⟩
  exact selFold_snd ev.id _ cm ts

theorem mem_lookup_selAll (m : List (String × AthleteData))
    (userIds : List String) (evs : List EventRow) :
    ∀ (acc : List (String × List String) × Int) (uid eid : String),
      (eid ∈ (((evs.foldl (fun a ev => selectEvent m userIds ev a)
          acc).1.lookup uid).getD [])) ↔
        (eid ∈ ((acc.1.lookup uid).getD []) ∨
          ∃ ev ∈ evs, ev.id = eid ∧
            uid ∈ (selectedPairs m userIds ev).map (·.1)) := by
  induction evs with
  | nil =>
    intro acc uid eid
    simp
  | cons ev evs ih =>
    intro acc uid eid
    rw [List.foldl_cons, ih, lookup_selectEvent]
    by_cases hm : uid ∈ (selectedPairs m userIds ev).map (·.1)
    · rw [if_pos hm]
      rw [mem_addId]
      constructor
      · rintro ((h | h) | h)
        · exact Or.inl h
        · exact Or.inr ⟨ev, List.mem_cons_self _ _, h.symm, hm⟩
        · obtain ⟨e2, he2, hid, hsel⟩ := h
          exact Or.inr ⟨e2, List.mem_cons_of_mem _ he2, hid, hsel⟩
      · rintro (h | ⟨e2, he2, hid, hsel⟩)
        · exact Or.inl (Or.inl h)
        · rcases List.mem_cons.mp he2 with rfl | he2b
          · exact Or.inl (Or.inr hid.symm)
          · exact Or.inr ⟨e2, he2b, hid, hsel⟩
    · rw [if_neg hm]
      constructor
      · rintro (h | ⟨e2, he2, hid, hsel⟩)
        · exact Or.inl h
        · exact Or.inr ⟨e2, List.mem_cons_of_mem _ he2, hid, hsel⟩
      · rintro (h | ⟨e2, he2, hid, hsel⟩)
        · exact Or.inl h
        · rcases List.mem_cons.mp he2 with rfl | he2b
          · exact absurd hsel hm
          · exact Or.inr ⟨e2, he2b, hid, hsel⟩

theorem byDivFor_mem_inv (m : List (String × AthleteData))
    (userIds : List String) (evId : String) :
    ∀ dv ∈ byDivFor m userIds evId, ∀ pr ∈ dv.2,
      ∃ ath, m.lookup pr.1 = some ath ∧ ath.divisionLabel = dv.1 ∧
        pr.2 = pointsFor ath evId := by
  rw [byDivFor]
  refine foldl_invariant _
    (fun acc : List (String × List (String × Int)) =>
      ∀ dv ∈ acc, ∀ pr ∈ dv.2,
        ∃ ath, m.lookup pr.1 = some ath ∧ ath.divisionLabel = dv.1 ∧
          pr.2 = pointsFor ath evId)
    userIds ?_ [] (by simp)
  intro acc uid _ hp
  cases hl : m.lookup uid with
  | none =>
    simp only [hl]
    exact hp
  | some athlete =>
    simp only [hl]
    intro dv hdv pr hpr
    rcases mem_mapSet _ _ _ _ hdv with hin | heq
    · exact hp dv hin pr hpr
    · rcases List.mem_append.mp (by rw [heq] at hpr; exact hpr) with h1 | h1
      · cases hl2 : acc.lookup athlete.divisionLabel with
        | none =>
          rw [hl2] at h1
          simp at h1
        | some cur =>
          rw [hl2] at h1
          simp only [Option.getD_some] at h1
          obtain ⟨ath, ha1, ha2, ha3⟩ :=
            hp (athlete.divisionLabel, cur) (lookup_mem acc _ cur hl2) pr h1
          exact ⟨ath, ha1, by rw [heq]; exact ha2, ha3⟩
      · simp only [List.mem_singleton] at h1
        refine ⟨athlete, ?_, by rw [heq], by rw [h1]⟩
        rw [h1]
        exact hl

theorem byDivFor_keys_nodup (m : List (String × AthleteData))
    (userIds : List String) (evId : String) :
    ((byDivFor m userIds evId).map (·.1)).Nodup := by
  rw [byDivFor]
  refine foldl_invariant _
    (fun acc : List (String × List (String × Int)) => (acc.map (·.1)).Nodup)
    userIds ?_ [] (by simp)
  intro acc uid _ hp
  cases hl : m.lookup uid with
  | none =>
    simp only [hl]
    exact hp
  | some athlete =>
    simp only [hl]
    exact nodup_keys_mapSet acc _ _ hp

theorem byDivFor_fst_complete (m : List (String × AthleteData))
    (userIds : List String) (evId : String) (uid : String) (ath : AthleteData)
    (h1 : uid ∈ userIds) (h2 : m.lookup uid = some ath) :
    ∃ dv ∈ byDivFor m userIds evId, dv.1 = ath.divisionLabel ∧
      (uid, pointsFor ath evId) ∈ dv.2 := by
  have hm : (uid, pointsFor ath evId) ∈
      (((byDivFor m userIds evId).map (fun dv => dv.2)).flatten) := by
    refine (byDivFor_flatten m userIds evId).mem_iff.mpr ?_
    refine List.mem_filterMap.mpr ⟨uid, h1, ?_⟩
    rw [h2]
  obtain ⟨l, hl, hpr⟩ := List.mem_flatten.mp hm
  obtain ⟨dv, hdv, hdvl⟩ := List.mem_map.mp hl
  obtain ⟨ath2, hb1, hb2, _⟩ :=
    byDivFor_mem_inv m userIds evId dv hdv _ (hdvl ▸ hpr)
  refine ⟨dv, hdv, ?_, hdvl ▸ hpr⟩
  rw [h2] at hb1
  rw [← hb2, Option.some.inj hb1]

theorem map_fst_byDivFor_flatten (m : List (String × AthleteData))
    (userIds : List String) (evId : String) :
    ((((byDivFor m userIds evId).map (fun dv => dv.2)).flatten).map
      (·.1)).Perm (userIds.filter (fun uid => (m.lookup uid).isSome)) := by
  refine ((byDivFor_flatten m userIds evId).map (·.1)).trans ?_
  rw [show (userIds.filterMap (fun uid =>
      match m.lookup uid with
      | none => none
      | some a => some (uid, pointsFor a evId))).map (·.1) =
      userIds.filter (fun uid => (m.lookup uid).isSome) from ?_]
  induction userIds with
  | nil => rfl
  | cons u us ih =>
    rw [List.filterMap_cons, List.filter_cons]
    cases hl : m.lookup u with
    | none => simp only [hl, Option.isSome_none, Bool.false_eq_true, if_false, ih]
    | some a =>
      simp only [hl, Option.isSome_some, if_pos, List.map_cons, ih]

theorem mem_selectedPairs (m : List (String × AthleteData))
    (userIds : List String) (ev : EventRow) (pr : String × Int)
    (h : pr ∈ selectedPairs m userIds ev) :
    ∃ dv ∈ byDivFor m userIds ev.id,
      pr ∈ (List.insertionSort (fun a b => b.2 ≤ a.2) dv.2).take
        TOP_PER_DIVISION := by
  rw [selectedPairs] at h
  obtain ⟨l, hl, hpr⟩ := List.mem_flatten.mp h
  obtain ⟨dv, hdv, hdvl⟩ := List.mem_map.mp hl
  exact ⟨dv, hdv, hdvl ▸ hpr⟩

theorem selectedPairs_subperm (m : List (String × AthleteData))
    (userIds : List String) (ev : EventRow) :
    (selectedPairs m userIds ev).Subperm
      (((byDivFor m userIds ev.id).map (fun dv => dv.2)).flatten) := by
  rw [selectedPairs]
  induction byDivFor m userIds ev.id with
  | nil => exact (List.Perm.refl []).subperm
  | cons dv L ih =>
    simp only [List.map_cons, List.flatten_cons]
    refine subperm_append_both ?_ ih
    exact ((List.take_sublist _ _).subperm).trans
      (List.perm_insertionSort _ _).subperm

theorem selectedPairs_fst_nodup (m : List (String × AthleteData))
    (userIds : List String) (ev : EventRow) (hu : userIds.Nodup) :
    ((selectedPairs m userIds ev).map (·.1)).Nodup := by
  have h1 := subperm_map_both (·.1) (selectedPairs_subperm m userIds ev)
  have h2 : ((((byDivFor m userIds ev.id).map (fun dv => dv.2)).flatten).map
      (·.1)).Nodup :=
    (map_fst_byDivFor_flatten m userIds ev.id).nodup_iff.mpr (hu.filter _)
  obtain ⟨u, hup, hs⟩ := h1
  exact hup.nodup_iff.mp (h2.sublist hs)

theorem selectedPairs_fst_sub (m : List (String × AthleteData))
    (userIds : List String) (ev : EventRow) :
    ((selectedPairs m userIds ev).map (·.1)) ⊆ userIds := by
  intro x hx
  have h1 := (subperm_map_both (·.1) (selectedPairs_subperm m userIds ev)).subset hx
  have h2 := (map_fst_byDivFor_flatten m userIds ev.id).mem_iff.mp h1
  exact List.mem_of_mem_filter h2

theorem gymEntryFold (ath : AthleteData) (contribEvents : List String)
    (evs : List EventRow) :
    ∀ (ges0 : List GymAthleteEvent) (ct0 : Int),
      evs.foldl (fun st ev =>
        let pts := pointsFor ath ev.id
        let isC := contribEvents.contains ev.id
        (st.1 ++ [{ eventId := ev.id, eventName := ev.workoutName,
                    points := pts, contributing := isC }],
         if isC then st.2 + pts else st.2)) (ges0, ct0) =
      (ges0 ++ evs.map (fun ev =>
         { eventId := ev.id, eventName := ev.workoutName,
           points := pointsFor ath ev.id,
           contributing := contribEvents.contains ev.id }),
       ct0 + ((evs.filter (fun ev => contribEvents.contains ev.id)).map
         (fun ev => pointsFor ath ev.id)).sum) := by
  induction evs with
  | nil =>
    intro ges0 ct0
    simp
  | cons e es ih =>
    intro ges0 ct0
    rw [List.foldl_cons]
    dsimp only
    rw [ih, List.filter_cons]
    by_cases hc : contribEvents.contains e.id = true
    · simp only [hc, if_pos, List.map_cons, List.sum_cons, List.append_assoc,
        List.singleton_append, Prod.mk.injEq]
      exact ⟨trivial, by ring⟩
    · simp only [hc, Bool.false_eq_true, if_false, List.append_assoc,
        List.singleton_append, List.map_cons]

theorem buildGymEntry_eq (m : List (String × AthleteData))
    (events : List EventRow) (cm : List (String × List String))
    (rankMap : List (String × Nat)) (uid : String) (ath : AthleteData)
    (h : m.lookup uid = some ath) :
    buildGymEntry m events cm rankMap uid =
      { name := ath.name
        division := ath.divisionLabel
        divisionRank := (rankMap.lookup uid).getD 0
        events := events.map (fun ev =>
          { eventId := ev.id, eventName := ev.workoutName,
            points := pointsFor ath ev.id,
            contributing := ((cm.lookup uid).getD []).contains ev.id })
        contributingTotal := ((events.filter (fun ev =>
          ((cm.lookup uid).getD []).contains ev.id)).map
          (fun ev => pointsFor ath ev.id)).sum } := by
  unfold buildGymEntry
  rw [h]
  dsimp only
  rw [gymEntryFold ath ((cm.lookup uid).getD []) events [] 0]
  simp

theorem event_ids_inj (events : List EventRow)
    (hev : (events.map (·.id)).Nodup) (ev ev2 : EventRow) (h1 : ev ∈ events)
    (h2 : ev2 ∈ events) (h : ev2.id = ev.id) : ev2 = ev :=
  List.inj_on_of_nodup_map hev h2 h1 h

theorem find?_map_by_id (f : EventRow → GymAthleteEvent)
    (hf : ∀ e, (f e).eventId = e.id) (ev : EventRow) :
    ∀ (events : List EventRow), (events.map (·.id)).Nodup → ev ∈ events →
      (events.map f).find? (fun ge => ge.eventId == ev.id) = some (f ev) := by
  intro events
  induction events with
  | nil =>
    intro _ hmem
    cases hmem
  | cons e es ih =>
    intro hev hmem
    rw [List.map_cons, List.find?_cons]
    by_cases hid : ((f e).eventId == ev.id) = true
    · have he : e = ev := by
        refine List.inj_on_of_nodup_map hev (List.mem_cons_self _ _) hmem ?_
        rw [← hf e]
        exact eq_of_beq hid
      rw [hid, he]
    · rw [Bool.eq_false_iff.mpr hid]
      have hev2 : (es.map (·.id)).Nodup := by
        rw [List.map_cons] at hev
        exact (List.nodup_cons.mp hev).2
      have hmem2 : ev ∈ es := by
        rcases List.mem_cons.mp hmem with rfl | h2
        · exact absurd (by rw [hf ev]; exact beq_self_eq_true ev.id) hid
        · exact h2
      exact ih hev2 hmem2

theorem entryContributes_buildGymEntry (m : List (String × AthleteData))
    (events : List EventRow) (cm : List (String × List String))
    (rankMap : List (String × Nat)) (uid : String) (ath : AthleteData)
    (h : m.lookup uid = some ath) (hev : (events.map (·.id)).Nodup)
    (ev : EventRow) (hmem : ev ∈ events) :
    entryContributes (buildGymEntry m events cm rankMap uid) ev.id =
      ((cm.lookup uid).getD []).contains ev.id := by
  rw [buildGymEntry_eq m events cm rankMap uid ath h, entryContributes]
  dsimp only
  rw [find?_map_by_id _ (fun e => rfl) ev events hev hmem]
  rfl

theorem entryEventPoints_buildGymEntry (m : List (String × AthleteData))
    (events : List EventRow) (cm : List (String × List String))
    (rankMap : List (String × Nat)) (uid : String) (ath : AthleteData)
    (h : m.lookup uid = some ath) (hev : (events.map (·.id)).Nodup)
    (ev : EventRow) (hmem : ev ∈ events) :
    entryEventPoints (buildGymEntry m events cm rankMap uid) ev.id =
      pointsFor ath ev.id := by
  rw [buildGymEntry_eq m events cm rankMap uid ath h, entryEventPoints]
  dsimp only
  rw [find?_map_by_id _ (fun e => rfl) ev events hev hmem]
  rfl

theorem division_buildGymEntry (m : List (String × AthleteData))
    (events : List EventRow) (cm : List (String × List String))
    (rankMap : List (String × Nat)) (uid : String) (ath : AthleteData)
    (h : m.lookup uid = some ath) :
    (buildGymEntry m events cm rankMap uid).division = ath.divisionLabel := by
  rw [buildGymEntry_eq m events cm rankMap uid ath h]

theorem selected_dominates (m : List (String × AthleteData))
    (userIds : List String) (ev : EventRow) (x y : String)
    (athx athy : AthleteData) (hx : m.lookup x = some athx)
    (hy : m.lookup y = some athy)
    (hxs : x ∈ (selectedPairs m userIds ev).map (·.1)) (hyu : y ∈ userIds)
    (hys : y ∉ (selectedPairs m userIds ev).map (·.1))
    (hlab : athy.divisionLabel = athx.divisionLabel) :
    pointsFor athy ev.id ≤ pointsFor athx ev.id := by
  obtain ⟨prx, hprx, hprx1⟩ := List.mem_map.mp hxs
  obtain ⟨dvx, hdvx, htake⟩ := mem_selectedPairs m userIds ev prx hprx
  have hsortx : prx ∈ List.insertionSort (fun a b : String × Int => b.2 ≤ a.2)
      dvx.2 := List.mem_of_mem_take htake
  have hbx : prx ∈ dvx.2 :=
    (List.perm_insertionSort (fun a b : String × Int => b.2 ≤ a.2)
      dvx.2).mem_iff.mp hsortx
  obtain ⟨athx2, hax1, hax2, hax3⟩ :=
    byDivFor_mem_inv m userIds ev.id dvx hdvx prx hbx
  have haxeq : athx2 = athx := by
    rw [hprx1] at hax1
    exact Option.some.inj (hax1.symm.trans hx)
  obtain ⟨dvy, hdvy, hdvy1, hpry⟩ :=
    byDivFor_fst_complete m userIds ev.id y athy hyu hy
  have hfst : dvy.1 = dvx.1 := by
    rw [hdvy1, hlab, ← hax2, haxeq]
  have hdveq : dvy = dvx := by
    have hl1 : (byDivFor m userIds ev.id).lookup dvy.1 = some dvy.2 :=
      lookup_of_mem_nodup _ (byDivFor_keys_nodup m userIds ev.id) dvy hdvy
    have hl2 : (byDivFor m userIds ev.id).lookup dvx.1 = some dvx.2 :=
      lookup_of_mem_nodup _ (byDivFor_keys_nodup m userIds ev.id) dvx hdvx
    rw [hfst] at hl1
    exact Prod.ext hfst (Option.some.inj (hl1.symm.trans hl2))
  rw [hdveq] at hpry
  have hsorty : (y, pointsFor athy ev.id) ∈
      List.insertionSort (fun a b : String × Int => b.2 ≤ a.2) dvx.2 :=
    (List.perm_insertionSort (fun a b : String × Int => b.2 ≤ a.2)
      dvx.2).mem_iff.mpr hpry
  have hnt : (y, pointsFor athy ev.id) ∉
      (List.insertionSort (fun a b : String × Int => b.2 ≤ a.2) dvx.2).take
        TOP_PER_DIVISION := by
    intro hc
    apply hys
    refine List.mem_map.mpr ⟨(y, pointsFor athy ev.id), ?_, rfl⟩
    rw [selectedPairs]
    exact List.mem_flatten.mpr ⟨_, List.mem_map.mpr ⟨dvx, hdvx, rfl⟩, hc⟩
  have hdropmem : (y, pointsFor athy ev.id) ∈
      (List.insertionSort (fun a b : String × Int => b.2 ≤ a.2) dvx.2).drop
        TOP_PER_DIVISION := by
    have happ := List.take_append_drop TOP_PER_DIVISION
      (List.insertionSort (fun a b : String × Int => b.2 ≤ a.2) dvx.2)
    rcases List.mem_append.mp (by rw [happ]; exact hsorty) with h | h
    · exact absurd h hnt
    · exact h
  have hsorted : List.Pairwise (fun a b : String × Int => b.2 ≤ a.2)
      (List.insertionSort (fun a b : String × Int => b.2 ≤ a.2) dvx.2) :=
    List.sorted_insertionSort (fun a b : String × Int => b.2 ≤ a.2) dvx.2
  rw [← List.take_append_drop TOP_PER_DIVISION
    (List.insertionSort (fun a b : String × Int => b.2 ≤ a.2) dvx.2)]
    at hsorted
  have hle := (List.pairwise_append.mp hsorted).2.2 prx htake
    (y, pointsFor athy ev.id) hdropmem
  rw [hax3, haxeq] at hle
  exact hle

theorem selected_bucket (m : List (String × AthleteData))
    (userIds : List String) (ev : EventRow) (uid : String) (ath : AthleteData)
    (hath : m.lookup uid = some ath)
    (hsel : uid ∈ (selectedPairs m userIds ev).map (·.1)) :
    ∃ dv ∈ byDivFor m userIds ev.id, dv.1 = ath.divisionLabel ∧
      ∃ pr ∈ (List.insertionSort (fun a b : String × Int => b.2 ≤ a.2)
        dv.2).take TOP_PER_DIVISION, pr.1 = uid := by
  obtain ⟨pr, hpr, hpre⟩ := List.mem_map.mp hsel
  obtain ⟨dv, hdv, htake⟩ := mem_selectedPairs m userIds ev pr hpr
  have hb : pr ∈ dv.2 :=
    (List.perm_insertionSort (fun a b : String × Int => b.2 ≤ a.2)
      dv.2).mem_iff.mp (List.mem_of_mem_take htake)
  obtain ⟨ath2, h1, h2, _⟩ := byDivFor_mem_inv m userIds ev.id dv hdv pr hb
  have hae : ath2 = ath := by
    rw [hpre] at h1
    exact Option.some.inj (h1.symm.trans hath)
  exact ⟨dv, hdv, by rw [← h2, hae], pr, htake, hpre⟩

theorem bucket_unique (m : List (String × AthleteData))
    (userIds : List String) (evId : String)
    (dv1 dv2 : String × List (String × Int)) (h1 : dv1 ∈ byDivFor m userIds evId)
    (h2 : dv2 ∈ byDivFor m userIds evId) (h : dv1.1 = dv2.1) : dv1 = dv2 := by
  have hl1 : (byDivFor m userIds evId).lookup dv1.1 = some dv1.2 :=
    lookup_of_mem_nodup _ (byDivFor_keys_nodup m userIds evId) dv1 h1
  have hl2 : (byDivFor m userIds evId).lookup dv2.1 = some dv2.2 :=
    lookup_of_mem_nodup _ (byDivFor_keys_nodup m userIds evId) dv2 h2
  rw [h] at hl1
  exact Prod.ext h (Option.some.inj (hl1.symm.trans hl2))

theorem selected_count_le (m : List (String × AthleteData))
    (userIds : List String) (ev : EventRow) (hu : userIds.Nodup) (d : String)
    (p : String → Bool)
    (hp : ∀ uid, p uid = true →
      uid ∈ (selectedPairs m userIds ev).map (·.1) ∧
      ∃ ath, m.lookup uid = some ath ∧ ath.divisionLabel = d) :
    (userIds.filter p).length ≤ TOP_PER_DIVISION := by
  rcases hF : userIds.filter p with _ | ⟨u0, us0⟩
  · simp
  · have hu0 : u0 ∈ userIds.filter p := by
      rw [hF]
      exact List.mem_cons_self _ _
    obtain ⟨hsel0, ath0, hath0, hlab0⟩ := hp u0 (List.mem_filter.mp hu0).2
    obtain ⟨dv0, hdv0, hkey0, _, _, _⟩ :=
      selected_bucket m userIds ev u0 ath0 hath0 hsel0
    have hsub : (userIds.filter p) ⊆
        ((List.insertionSort (fun a b : String × Int => b.2 ≤ a.2)
          dv0.2).take TOP_PER_DIVISION).map (·.1) := by
      intro w hw
      obtain ⟨hselw, athw, hathw, hlabw⟩ := hp w (List.mem_filter.mp hw).2
      obtain ⟨dvw, hdvw, hkeyw, prw, hprw, hprwe⟩ :=
        selected_bucket m userIds ev w athw hathw hselw
      have hdveq : dvw = dv0 := bucket_unique m userIds ev.id dvw dv0 hdvw hdv0
        (by rw [hkeyw, hlabw, ← hlab0, ← hkey0])
      rw [hdveq] at hprw
      exact List.mem_map.mpr ⟨prw, hprw, hprwe⟩
    have hlen := ((hu.filter p).subperm hsub).length_le
    rw [← hF]
    refine le_trans hlen ?_
    rw [List.length_map, List.length_take]
    exact inf_le_left

theorem cm_contains_iff (m : List (String × AthleteData))
    (userIds : List String) (events : List EventRow)
    (hev : (events.map (·.id)).Nodup) (ev : EventRow) (hmem : ev ∈ events)
    (uid : String) :
    ((((events.foldl (fun a e2 => selectEvent m userIds e2 a)
        (([] : List (String × List String)), (0 : Int))).1.lookup uid).getD
        []).contains ev.id) = true ↔
      uid ∈ (selectedPairs m userIds ev).map (·.1) := by
  have hcm := mem_lookup_selAll m userIds events ([], 0) uid ev.id
  simp only [List.lookup, Option.getD_none, List.not_mem_nil, false_or] at hcm
  constructor
  · intro h
    obtain ⟨e2, he2, hid, hsel⟩ := hcm.mp (by simpa using h)
    rw [event_ids_inj events hev ev e2 hmem he2 hid] at hsel
    exact hsel
  · intro h
    have h2 := hcm.mpr ⟨ev, hmem, rfl, h⟩
    simpa using h2

theorem buildGym_top_six (m : List (String × AthleteData))
    (events : List EventRow) (rankMap : List (String × Nat)) (gname : Json)
    (userIds : List String) (hev : (events.map (·.id)).Nodup)
    (hu : userIds.Nodup)
    (hsome : ∀ uid ∈ userIds, (m.lookup uid).isSome = true)
    (ev : EventRow) (hmem : ev ∈ events) (d : String) :
    (((buildGym m events rankMap gname userIds).athletes.filter
        (fun e => e.division == d && entryContributes e ev.id)).length ≤
      TOP_PER_DIVISION) ∧
    (∀ x ∈ (buildGym m events rankMap gname userIds).athletes,
      ∀ y ∈ (buildGym m events rankMap gname userIds).athletes,
        x.division = d → y.division = d →
        entryContributes x ev.id = true → entryContributes y ev.id = false →
        entryEventPoints y ev.id ≤ entryEventPoints x ev.id) := by
  have hath : (buildGym m events rankMap gname userIds).athletes =
      List.insertionSort
        (fun a b => b.contributingTotal ≤ a.contributingTotal)
        (userIds.map (buildGymEntry m events
          (events.foldl (fun acc e2 => selectEvent m userIds e2 acc)
            (([] : List (String × List String)), (0 : Int))).1 rankMap)) := rfl
  constructor
  · rw [hath]
    have hperm := (List.perm_insertionSort
      (fun a b : GymAthleteEntry => b.contributingTotal ≤ a.contributingTotal)
      (userIds.map (buildGymEntry m events
        (events.foldl (fun acc e2 => selectEvent m userIds e2 acc)
          (([] : List (String × List String)), (0 : Int))).1 rankMap))).filter
      (fun e => e.division == d && entryContributes e ev.id)
    rw [hperm.length_eq, List.filter_map, List.length_map]
    refine selected_count_le m userIds ev hu d _ ?_
    intro uid hq
    simp only [Function.comp] at hq
    cases hl : m.lookup uid with
    | none =>
      have hdef : buildGymEntry m events
          (events.foldl (fun acc e2 => selectEvent m userIds e2 acc)
            (([] : List (String × List String)), (0 : Int))).1 rankMap uid =
          { name := "", division := "", divisionRank := 0, events := [],
            contributingTotal := 0 } := by
        unfold buildGymEntry
        rw [hl]
      rw [hdef] at hq
      simp [entryContributes, List.find?] at hq
    | some ath =>
      rw [entryContributes_buildGymEntry m events _ rankMap uid ath hl hev
        ev hmem, division_buildGymEntry m events _ rankMap uid ath hl] at hq
      rw [Bool.and_eq_true] at hq
      obtain ⟨hq1, hq2⟩ := hq
      exact ⟨(cm_contains_iff m userIds events hev ev hmem uid).mp hq2,
        ath, rfl, eq_of_beq hq1⟩
  · intro x hx y hy hxd hyd hxc hyc
    rw [hath] at hx hy
    have hx2 := (List.perm_insertionSort
      (fun a b : GymAthleteEntry => b.contributingTotal ≤ a.contributingTotal)
      _).mem_iff.mp hx
    have hy2 := (List.perm_insertionSort
      (fun a b : GymAthleteEntry => b.contributingTotal ≤ a.contributingTotal)
      _).mem_iff.mp hy
    obtain ⟨ux, hux, hxe⟩ := List.mem_map.mp hx2
    obtain ⟨uy, huy, hye⟩ := List.mem_map.mp hy2
    obtain ⟨athx, hax⟩ := Option.isSome_iff_exists.mp (hsome ux hux)
    obtain ⟨athy, hay⟩ := Option.isSome_iff_exists.mp (hsome uy huy)
    rw [← hxe] at hxd hxc
    rw [← hye] at hyd hyc
    rw [division_buildGymEntry m events _ rankMap ux athx hax] at hxd
    rw [division_buildGymEntry m events _ rankMap uy athy hay] at hyd
    rw [entryContributes_buildGymEntry m events _ rankMap ux athx hax hev
      ev hmem] at hxc
    rw [entryContributes_buildGymEntry m events _ rankMap uy athy hay hev
      ev hmem] at hyc
    have hselx := (cm_contains_iff m userIds events hev ev hmem ux).mp hxc
    have hnsel : uy ∉ (selectedPairs m userIds ev).map (·.1) := by
      intro hc
      have h2 := ((cm_contains_iff m userIds events hev ev hmem uy).mpr
        hc).symm.trans hyc
      exact Bool.noConfusion h2
    rw [← hxe, ← hye]
    rw [entryEventPoints_buildGymEntry m events _ rankMap ux athx hax hev
      ev hmem, entryEventPoints_buildGymEntry m events _ rankMap uy athy hay
      hev ev hmem]
    exact selected_dominates m userIds ev ux uy athx athy hax hay hselx huy
      hnsel (by rw [hyd, hxd])

theorem mem_gyms_unpack (comp : Competition) (track : Option String)
    (events : List EventRow) (registrations : List RegistrationRow)
    (scores : List ScoreRow) (g : GymLeaderboard)
    (hg : g ∈ (getLeaderboard comp track events registrations scores).gyms) :
    ∃ gv ∈ gymAthleteIdsFor (finalAthleteMap events
      (eligibleRegs registrations) scores),
      gv.2.Nodup ∧
      (∀ uid ∈ gv.2, ((finalAthleteMap events (eligibleRegs registrations)
        scores).lookup uid).isSome = true) ∧
      g.athletes = (buildGym (finalAthleteMap events
        (eligibleRegs registrations) scores) events
        (divisionRankMapFor (buildDivisions (finalAthleteMap events
          (eligibleRegs registrations) scores))) gv.1 gv.2).athletes ∧
      g.totalScore = (buildGym (finalAthleteMap events
        (eligibleRegs registrations) scores) events
        (divisionRankMapFor (buildDivisions (finalAthleteMap events
          (eligibleRegs registrations) scores))) gv.1 gv.2).totalScore := by
  have hnodupF : ((finalAthleteMap events (eligibleRegs registrations)
      scores).map (·.1)).Nodup := by
    rw [map_fst_finalAthleteMap]
    exact nodup_keys_initialAthleteMap _
  have hperm := gym_flatten_perm_keys events (eligibleRegs registrations) scores
  have hflat : (((gymAthleteIdsFor (finalAthleteMap events
      (eligibleRegs registrations) scores)).map
      (fun gv => gv.2)).flatten).Nodup := hperm.symm.nodup hnodupF
  cases track with
  | none =>
    simp [getLeaderboard] at hg
  | some t =>
    by_cases he : events.length = 0
    · simp [getLeaderboard, he] at hg
    · by_cases hr : (eligibleRegs registrations).length = 0
      · simp [getLeaderboard, he, hr] at hg
      · have hout : (getLeaderboard comp (some t) events registrations
            scores).gyms = rankGyms ((gymAthleteIdsFor (finalAthleteMap events
            (eligibleRegs registrations) scores)).map
            (fun gv => buildGym (finalAthleteMap events
              (eligibleRegs registrations) scores) events
              (divisionRankMapFor (buildDivisions (finalAthleteMap events
                (eligibleRegs registrations) scores))) gv.1 gv.2)) := by
          simp only [getLeaderboard, if_neg he, if_neg hr]
        rw [hout, rankGyms] at hg
        obtain ⟨y, r, hy, hye⟩ := mem_denseRankAux _ _ _ 0 1 none g hg
        have hy2 : y ∈ ((gymAthleteIdsFor (finalAthleteMap events
            (eligibleRegs registrations) scores)).map
            (fun gv => buildGym (finalAthleteMap events
              (eligibleRegs registrations) scores) events
              (divisionRankMapFor (buildDivisions (finalAthleteMap events
                (eligibleRegs registrations) scores))) gv.1 gv.2)) :=
          List.mem_of_mem_filter ((List.perm_insertionSort _ _).mem_iff.mp hy)
        obtain ⟨gv, hgv, hgve⟩ := List.mem_map.mp hy2
        refine ⟨gv, hgv, ?_, ?_, ?_, ?_⟩
        · exact (List.nodup_flatten.mp hflat).1 gv.2
            (List.mem_map_of_mem (fun gv => gv.2) hgv)
        · intro uid huid
          refine lookup_isSome_of_mem_keys _ uid (hperm.mem_iff.mp ?_)
          exact List.mem_flatten.mpr
            ⟨gv.2, List.mem_map_of_mem (fun gv => gv.2) hgv, huid⟩
        · rw [hye, ← hgve]
        · rw [hye, ← hgve]

/-- C4: in every output gym, for every published event and every division,
at most `TOP_PER_DIVISION` (6) of the gym's athlete entries in that
division are marked contributing for that event, and the contributing
entries are the highest-scoring by per-event points: every contributing
entry's points for the event are at least every non-contributing
same-division entry's points.  Event ids are assumed distinct (they are
the `track_workouts` primary key). -/
theorem claimC4_top_six_contributing (comp : Competition)
    (track : Option String) (events : List EventRow)
    (registrations : List RegistrationRow) (scores : List ScoreRow)
    (hev : (events.map (·.id)).Nodup) (g : GymLeaderboard)
    (hg : g ∈ (getLeaderboard comp track events registrations scores).gyms)
    (ev : EventRow) (hmem : ev ∈ events) (d : String) :
    ((g.athletes.filter (fun e => e.division == d &&
        entryContributes e ev.id)).length ≤ TOP_PER_DIVISION) ∧
    (∀ x ∈ g.athletes, ∀ y ∈ g.athletes, x.division = d → y.division = d →
      entryContributes x ev.id = true → entryContributes y ev.id = false →
      entryEventPoints y ev.id ≤ entryEventPoints x ev.id) := by
  obtain ⟨gv, hgv, hu, hsome, hath, _⟩ := mem_gyms_unpack comp track events
    registrations scores g hg
  rw [hath]
  exact buildGym_top_six _ events _ gv.1 gv.2 hev hu hsome ev hmem d

theorem claimC4_top_six_contributing_witness :
    ((exC6Events.map (·.id)).Nodup ∧
      exC6Gym ∈ (getLeaderboard exComp (some "t") exC6Events exC6Regs
        exC6Scores).gyms ∧
      ({ id := "e1", trackOrder := 1, pointsMultiplier := none,
         workoutId := "w1", workoutName := "W", scheme := "time" } :
        EventRow) ∈ exC6Events) ∧
    (((exC6Gym.athletes.filter (fun e => e.division == "A" &&
        entryContributes e "e1")).length ≤ TOP_PER_DIVISION) ∧
      (∀ x ∈ exC6Gym.athletes, ∀ y ∈ exC6Gym.athletes,
        x.division = "A" → y.division = "A" →
        entryContributes x "e1" = true → entryContributes y "e1" = false →
        entryEventPoints y "e1" ≤ entryEventPoints x "e1")) :=
  ⟨⟨by decide, by decide, by decide⟩,
   claimC4_top_six_contributing exComp (some "t") exC6Events exC6Regs
     exC6Scores (by decide) exC6Gym (by decide)
     { id := "e1", trackOrder := 1, pointsMultiplier := none,
       workoutId := "w1", workoutName := "W", scheme := "time" }
     (by decide) "A"⟩

theorem contributingTotal_buildGymEntry (m : List (String × AthleteData))
    (events : List EventRow) (cm : List (String × List String))
    (rankMap : List (String × Nat)) (uid : String) :
    (buildGymEntry m events cm rankMap uid).contributingTotal =
      (((buildGymEntry m events cm rankMap uid).events.filter
        (·.contributing)).map (·.points)).sum := by
  cases hl : m.lookup uid with
  | none =>
    have hdef : buildGymEntry m events cm rankMap uid =
        { name := "", division := "", divisionRank := 0, events := [],
          contributingTotal := 0 } := by
      unfold buildGymEntry
      rw [hl]
    rw [hdef]
    rfl
  | some ath =>
    rw [buildGymEntry_eq m events cm rankMap uid ath hl]
    dsimp only
    rw [List.filter_map, List.map_map]
    congr 1

theorem selAll_snd (m : List (String × AthleteData)) (userIds : List String)
    (evs : List EventRow) :
    ∀ (acc : List (String × List String) × Int),
      (evs.foldl (fun a e2 => selectEvent m userIds e2 a) acc).2 =
        acc.2 + (evs.map (fun ev =>
          ((selectedPairs m userIds ev).map (·.2)).sum)).sum := by
  induction evs with
  | nil =>
    intro acc
    simp
  | cons ev evs ih =>
    intro acc
    rw [List.foldl_cons, ih, snd_selectEvent]
    simp only [List.map_cons, List.sum_cons]
    ring

theorem selectedPairs_snd_sum (m : List (String × AthleteData))
    (userIds : List String) (ev : EventRow) (hu : userIds.Nodup) :
    ((selectedPairs m userIds ev).map (·.2)).sum =
      (userIds.map (fun uid =>
        if uid ∈ (selectedPairs m userIds ev).map (·.1)
        then (match m.lookup uid with
              | some a => pointsFor a ev.id
              | none => 0)
        else 0)).sum := by
  have h1 : (selectedPairs m userIds ev).map (·.2) =
      ((selectedPairs m userIds ev).map (·.1)).map (fun uid =>
        match m.lookup uid with
        | some a => pointsFor a ev.id
        | none => 0) := by
    rw [List.map_map]
    refine List.map_congr_left ?_
    intro pr hpr
    obtain ⟨dv, hdv, htake⟩ := mem_selectedPairs m userIds ev pr hpr
    have hb : pr ∈ dv.2 :=
      (List.perm_insertionSort (fun a b : String × Int => b.2 ≤ a.2)
        dv.2).mem_iff.mp (List.mem_of_mem_take htake)
    obtain ⟨ath, ha1, _, ha3⟩ := byDivFor_mem_inv m userIds ev.id dv hdv pr hb
    simp only [Function.comp_apply, ha1]
    exact ha3
  rw [h1]
  exact (sum_ite_mem userIds ((selectedPairs m userIds ev).map (·.1)) _
    (selectedPairs_fst_nodup m userIds ev hu)
    (selectedPairs_fst_sub m userIds ev) hu).symm

theorem buildGym_totalScore (m : List (String × AthleteData))
    (events : List EventRow) (rankMap : List (String × Nat)) (gname : Json)
    (userIds : List String) (hev : (events.map (·.id)).Nodup)
    (hu : userIds.Nodup)
    (hsome : ∀ uid ∈ userIds, (m.lookup uid).isSome = true) :
    (buildGym m events rankMap gname userIds).totalScore =
      ((buildGym m events rankMap gname userIds).athletes.map
        (·.contributingTotal)).sum := by
  have hts : (buildGym m events rankMap gname userIds).totalScore =
      (events.foldl (fun a e2 => selectEvent m userIds e2 a)
        (([] : List (String × List String)), (0 : Int))).2 := rfl
  have hath : (buildGym m events rankMap gname userIds).athletes =
      List.insertionSort
        (fun a b => b.contributingTotal ≤ a.contributingTotal)
        (userIds.map (buildGymEntry m events
          (events.foldl (fun acc e2 => selectEvent m userIds e2 acc)
            (([] : List (String × List String)), (0 : Int))).1 rankMap)) := rfl
  rw [hts, hath]
  rw [((List.perm_insertionSort
    (fun a b : GymAthleteEntry => b.contributingTotal ≤ a.contributingTotal)
    (userIds.map (buildGymEntry m events
      (events.foldl (fun acc e2 => selectEvent m userIds e2 acc)
        (([] : List (String × List String)), (0 : Int))).1 rankMap))).map
    (·.contributingTotal)).sum_eq]
  rw [selAll_snd m userIds events ([], 0), List.map_map]
  have hL : events.map (fun ev =>
      ((selectedPairs m userIds ev).map (·.2)).sum) =
      events.map (fun ev => (userIds.map (fun uid =>
        if uid ∈ (selectedPairs m userIds ev).map (·.1)
        then (match m.lookup uid with
              | some a => pointsFor a ev.id
              | none => 0)
        else 0)).sum) :=
    List.map_congr_left (fun ev _ => selectedPairs_snd_sum m userIds ev hu)
  rw [hL]
  rw [sum_map_comm (fun ev uid =>
    if uid ∈ (selectedPairs m userIds ev).map (·.1)
    then (match m.lookup uid with
          | some a => pointsFor a ev.id
          | none => 0)
    else 0) events userIds]
  have hR : userIds.map (fun uid => (events.map (fun ev =>
      if uid ∈ (selectedPairs m userIds ev).map (·.1)
      then (match m.lookup uid with
            | some a => pointsFor a ev.id
            | none => 0)
      else 0)).sum) =
      userIds.map ((fun e : GymAthleteEntry => e.contributingTotal) ∘
        (buildGymEntry m events
          (events.foldl (fun acc e2 => selectEvent m userIds e2 acc)
            (([] : List (String × List String)), (0 : Int))).1 rankMap)) := by
    refine List.map_congr_left ?_
    intro uid huid
    obtain ⟨ath, hathl⟩ := Option.isSome_iff_exists.mp (hsome uid huid)
    simp only [Function.comp_apply]
    rw [buildGymEntry_eq m events _ rankMap uid ath hathl]
    dsimp only
    rw [sum_filter_eq_sum_ite]
    refine congrArg List.sum (List.map_congr_left ?_)
    intro ev hmemev
    have hiff := cm_contains_iff m userIds events hev ev hmemev uid
    simp only [hathl]
    by_cases hs : uid ∈ (selectedPairs m userIds ev).map (·.1)
    · rw [if_pos hs, if_pos (hiff.mpr hs)]
    · rw [if_neg hs, if_neg (fun hc => hs (hiff.mp hc))]
  rw [hR, zero_add]

theorem mem_buildGym_athletes (m : List (String × AthleteData))
    (events : List EventRow) (rankMap : List (String × Nat)) (gname : Json)
    (userIds : List String) (e : GymAthleteEntry)
    (he : e ∈ (buildGym m events rankMap gname userIds).athletes) :
    ∃ uid ∈ userIds, e = buildGymEntry m events
      (events.foldl (fun acc e2 => selectEvent m userIds e2 acc)
        (([] : List (String × List String)), (0 : Int))).1 rankMap uid := by
  have hath : (buildGym m events rankMap gname userIds).athletes =
      List.insertionSort
        (fun a b => b.contributingTotal ≤ a.contributingTotal)
        (userIds.map (buildGymEntry m events
          (events.foldl (fun acc e2 => selectEvent m userIds e2 acc)
            (([] : List (String × List String)), (0 : Int))).1 rankMap)) := rfl
  rw [hath] at he
  obtain ⟨uid, huid, hee⟩ := List.mem_map.mp
    ((List.perm_insertionSort
      (fun a b : GymAthleteEntry => b.contributingTotal ≤ a.contributingTotal)
      _).mem_iff.mp he)
  exact ⟨uid, huid, hee.symm⟩

/-- C5: in every output gym, each athlete entry's contributing total equals
the sum of that entry's points over exactly the events marked contributing,
and the gym's total score equals the sum of the contributing totals over
all of the gym's athlete entries.  Event ids are assumed distinct (they
are the `track_workouts` primary key). -/
theorem claimC5_totals (comp : Competition) (track : Option String)
    (events : List EventRow) (registrations : List RegistrationRow)
    (scores : List ScoreRow) (hev : (events.map (·.id)).Nodup)
    (g : GymLeaderboard)
    (hg : g ∈ (getLeaderboard comp track events registrations scores).gyms) :
    (∀ e ∈ g.athletes, e.contributingTotal =
       ((e.events.filter (·.contributing)).map (·.points)).sum) ∧
    g.totalScore = (g.athletes.map (·.contributingTotal)).sum := by
  obtain ⟨gv, hgv, hu, hsome, hath, hts⟩ := mem_gyms_unpack comp track events
    registrations scores g hg
  constructor
  · intro e he
    rw [hath] at he
    obtain ⟨uid, _, hee⟩ := mem_buildGym_athletes _ events _ gv.1 gv.2 e he
    rw [hee]
    exact contributingTotal_buildGymEntry _ events _ _ uid
  · rw [hts, hath]
    exact buildGym_totalScore _ events _ gv.1 gv.2 hev hu hsome

theorem claimC5_totals_witness :
    ((exC6Events.map (·.id)).Nodup ∧
      exC6Gym ∈ (getLeaderboard exComp (some "t") exC6Events exC6Regs
        exC6Scores).gyms) ∧
    ((∀ e ∈ exC6Gym.athletes, e.contributingTotal =
        ((e.events.filter (·.contributing)).map (·.points)).sum) ∧
      exC6Gym.totalScore =
        (exC6Gym.athletes.map (·.contributingTotal)).sum) :=
  ⟨⟨by decide, by decide⟩,
   claimC5_totals exComp (some "t") exC6Events exC6Regs exC6Scores
     (by decide) exC6Gym (by decide)⟩
